import Mathlib

/-!
A shallow embedding, in Lean 4, of the core of the `lisp-acsl` interpreter
(`src/Interpreter.ts`): the S-expression parser, the value model, the
environment, the mutually recursive `fetch` / `execute` evaluator, and the
native operator set installed by the driver.

Modelling conventions, stated once:

* The `parent` back-reference carried by every TypeScript value is omitted:
  the specification states it is never semantically observed, and every
  "shallow copy" performed by the natives (`CAR`, `CDR`, `CONS`, `REVERSE`,
  `EVAL`) copies all fields except `parent`, so a copy is the identity here.
* The host JavaScript `Number(...)` string coercion, `isNaN`, `String(...)`
  rendering of numbers, and double-precision arithmetic are host primitives,
  not repository code; they are modelled below (`jsToNumber`, `JSNum.isNaN`,
  `jsNumToString`, `JSNum.add`, ...) over exact rationals.  The claims under
  verification depend only on which texts coerce to NaN, on the coercion of
  non-atom values (`Number([]) = 0`, objects and functions coerce to NaN),
  and on integer-valued results, all of which the model reproduces exactly;
  rounding of non-integer doubles and their shortest-round-trip rendering
  are outside the model and outside every claim.
* The JavaScript `Map` is modelled as an association list read through
  `mget` (first binding wins); `mset` prepends, which is observationally
  equivalent to `Map.prototype.set` for every read the program performs.
  `new Map(memory)` (the call-frame snapshot) is the identity on this
  functional representation.
* Unbounded recursion in the evaluator is modelled with a fuel parameter:
  `evalN n` is the evaluator allowed recursion depth `n`; exhausting fuel
  yields the distinguished outcome `Err.fuelOut`, which is never identified
  with a program error (`Err.err msg`).
* Where the TypeScript would crash with a host `TypeError` (situations its
  type annotations claim impossible but `as`-casts allow), the model fails
  with an `Err.err` message beginning `TypeError:`; such branches are
  unreachable from parsed programs and the standard memory.
-/

namespace Interp

/-- Model of a JavaScript number as produced by `Number(string)` coercion:
`NaN`, the two infinities, an exact finite rational, or a finite double that
the rational model does not represent (result of `**` with a non-integer
exponent; never produced by `jsToNumber`). -/
inductive JSNum where
  | nan : JSNum
  | inf : JSNum
  | negInf : JSNum
  | fin (q : ℚ) : JSNum
  | finUnknown : JSNum
deriving DecidableEq

/-- `isNaN` on a modelled JavaScript number. -/
def JSNum.isNaN : JSNum → Bool
  | .nan => true
  | _ => false

/-- Exact-rational helpers for the host-number model (spelled through
`mkRat` so that every arithmetic step stays kernel-computable). -/
def qnat (n : ℕ) : ℚ := mkRat (Int.ofNat n) 1

/-- Exact rational addition. -/
def qadd (a b : ℚ) : ℚ := mkRat (a.num * b.den + b.num * a.den) (a.den * b.den)

/-- Exact rational subtraction. -/
def qsub (a b : ℚ) : ℚ := mkRat (a.num * b.den - b.num * a.den) (a.den * b.den)

/-- Exact rational multiplication. -/
def qmul (a b : ℚ) : ℚ := mkRat (a.num * b.num) (a.den * b.den)

/-- Exact rational inverse (`0⁻¹ = 0`, matching `Rat.inv`). -/
def qinv (a : ℚ) : ℚ :=
  if a.num < 0 then mkRat (-(a.den : ℤ)) a.num.natAbs else mkRat (a.den : ℤ) a.num.natAbs

/-- Exact rational division. -/
def qdiv (a b : ℚ) : ℚ := qmul a (qinv b)

/-- Exact rational natural power. -/
def qpowNat (q : ℚ) : ℕ → ℚ
  | 0 => qnat 1
  | n + 1 => qmul q (qpowNat q n)

/-- Exact rational integer power. -/
def qpowInt (q : ℚ) : ℤ → ℚ
  | .ofNat n => qpowNat q n
  | .negSucc n => qinv (qpowNat q (n + 1))

/-- Decimal digit test (model of the digits accepted by the host's decimal
number grammar). -/
def isDig (c : Char) : Bool := '0' ≤ c && c ≤ '9'

/-- Numeric value of a list of decimal digits. -/
def digitsVal (l : List Char) : ℕ :=
  l.foldl (fun a c => a * 10 + (c.toNat - 48)) 0

/-- Hexadecimal digit value, if any. -/
def hexDigitVal (c : Char) : Option ℕ :=
  if '0' ≤ c && c ≤ '9' then some (c.toNat - 48)
  else if 'a' ≤ c && c ≤ 'f' then some (c.toNat - 87)
  else if 'A' ≤ c && c ≤ 'F' then some (c.toNat - 55)
  else none

/-- Value of a digit list in a given radix, if every digit is legal. -/
def radixVal (radix : ℕ) : List Char → Option ℕ
  | [] => some 0
  | c :: r => do
      let d ← hexDigitVal c
      if d < radix then
        let rest ← radixVal radix r
        -- digits are accumulated most-significant first by the caller's fold
        return d * radix ^ r.length + rest
      else none

/-- Exponent suffix of a decimal literal: optional sign then digits. -/
def parseExpPart (base : ℚ) (cs : List Char) : Option ℚ :=
  let (sgn, ds) : ℤ × List Char :=
    match cs with
    | '+' :: r => (1, r)
    | '-' :: r => (-1, r)
    | r => (1, r)
  if ds.isEmpty || !ds.all isDig then none
  else some (qmul base (qpowInt (qnat 10) (sgn * (digitsVal ds : ℤ))))

/-- Decimal part of the host's string-number grammar:
`digits [. digits] [e digits]` with at least one digit overall. -/
def parseDec (cs : List Char) : Option ℚ :=
  let intPart := cs.takeWhile isDig
  let rest := cs.dropWhile isDig
  match rest with
  | [] => if intPart.isEmpty then none else some (qnat (digitsVal intPart))
  | '.' :: rest2 =>
      let fracPart := rest2.takeWhile isDig
      let rest3 := rest2.dropWhile isDig
      if intPart.isEmpty && fracPart.isEmpty then none
      else
        let base : ℚ :=
          qadd (qnat (digitsVal intPart))
            (qdiv (qnat (digitsVal fracPart)) (qpowNat (qnat 10) fracPart.length))
        match rest3 with
        | [] => some base
        | 'e' :: rest4 => parseExpPart base rest4
        | 'E' :: rest4 => parseExpPart base rest4
        | _ => none
  | 'e' :: rest2 =>
      if intPart.isEmpty then none else parseExpPart (qnat (digitsVal intPart)) rest2
  | 'E' :: rest2 =>
      if intPart.isEmpty then none else parseExpPart (qnat (digitsVal intPart)) rest2
  | _ => none

/-- Whitespace stripped by the host before numeric conversion. -/
def isWs (c : Char) : Bool := c = ' ' || c = '\t' || c = '\n' || c = '\r'

/-- Model of the host `Number(string)` coercion on the string shapes the
interpreter can produce: trimmed whitespace, empty string is `0`,
`0x`/`0o`/`0b` radix literals (sign not allowed), otherwise an optional
sign followed by `Infinity` or a decimal literal; everything else is NaN. -/
def jsToNumber (s : String) : JSNum :=
  let t := (s.data.dropWhile isWs).reverse.dropWhile isWs |>.reverse
  match t with
  | [] => .fin 0
  | '0' :: x :: rest =>
      if x = 'x' || x = 'X' then
        match radixVal 16 rest with
        | some n => if rest.isEmpty then .nan else .fin (qnat n)
        | none => .nan
      else if x = 'o' || x = 'O' then
        match radixVal 8 rest with
        | some n => if rest.isEmpty then .nan else .fin (qnat n)
        | none => .nan
      else if x = 'b' || x = 'B' then
        match radixVal 2 rest with
        | some n => if rest.isEmpty then .nan else .fin (qnat n)
        | none => .nan
      else
        match parseDec t with
        | some q => .fin q
        | none => .nan
  | _ =>
      let (neg, body) : Bool × List Char :=
        match t with
        | '+' :: r => (false, r)
        | '-' :: r => (true, r)
        | r => (false, r)
      if body = "Infinity".data then
        if neg then .negInf else .inf
      else
        match parseDec body with
        | some q => .fin (if neg then q.neg else q)
        | none => .nan

/-- Host `+` on doubles (exact-rational model; see header). -/
def JSNum.add : JSNum → JSNum → JSNum
  | .nan, _ => .nan
  | _, .nan => .nan
  | .finUnknown, _ => .finUnknown
  | _, .finUnknown => .finUnknown
  | .inf, .negInf => .nan
  | .negInf, .inf => .nan
  | .inf, _ => .inf
  | _, .inf => .inf
  | .negInf, _ => .negInf
  | _, .negInf => .negInf
  | .fin a, .fin b => .fin (qadd a b)

/-- Host binary `-` on doubles (exact-rational model). -/
def JSNum.sub : JSNum → JSNum → JSNum
  | .nan, _ => .nan
  | _, .nan => .nan
  | .finUnknown, _ => .finUnknown
  | _, .finUnknown => .finUnknown
  | .inf, .inf => .nan
  | .negInf, .negInf => .nan
  | .inf, _ => .inf
  | .negInf, _ => .negInf
  | _, .inf => .negInf
  | _, .negInf => .inf
  | .fin a, .fin b => .fin (qsub a b)

/-- Host `*` on doubles (exact-rational model). -/
def JSNum.mul : JSNum → JSNum → JSNum
  | .nan, _ => .nan
  | _, .nan => .nan
  | .finUnknown, _ => .finUnknown
  | _, .finUnknown => .finUnknown
  | .inf, .inf => .inf
  | .inf, .negInf => .negInf
  | .negInf, .inf => .negInf
  | .negInf, .negInf => .inf
  | .inf, .fin b => if b = 0 then .nan else if 0 < b then .inf else .negInf
  | .fin a, .inf => if a = 0 then .nan else if 0 < a then .inf else .negInf
  | .negInf, .fin b => if b = 0 then .nan else if 0 < b then .negInf else .inf
  | .fin a, .negInf => if a = 0 then .nan else if 0 < a then .negInf else .inf
  | .fin a, .fin b => .fin (qmul a b)

/-- Host `/` on doubles (exact-rational model; the signed zero of the host
is not modelled, so division by a literal `-0` is outside the model). -/
def JSNum.div : JSNum → JSNum → JSNum
  | .nan, _ => .nan
  | _, .nan => .nan
  | .finUnknown, _ => .finUnknown
  | _, .finUnknown => .finUnknown
  | .inf, .inf => .nan
  | .inf, .negInf => .nan
  | .negInf, .inf => .nan
  | .negInf, .negInf => .nan
  | .inf, .fin b => if 0 ≤ b then .inf else .negInf
  | .negInf, .fin b => if 0 ≤ b then .negInf else .inf
  | .fin _, .inf => .fin 0
  | .fin _, .negInf => .fin 0
  | .fin a, .fin b =>
      if b = 0 then
        if a = 0 then .nan else if 0 < a then .inf else .negInf
      else .fin (qdiv a b)

/-- Host `**` on doubles.  Integer exponents of finite bases are exact;
a non-integer exponent of a non-negative finite base yields a finite double
the rational model cannot represent (`finUnknown`); a negative finite base
with a non-integer exponent yields NaN, as on the host. -/
def JSNum.pow : JSNum → JSNum → JSNum
  | .nan, _ => .nan
  | _, .nan => .nan
  | .finUnknown, _ => .finUnknown
  | _, .finUnknown => .finUnknown
  | .fin a, .fin b =>
      if b = 0 then .fin 1
      else if b.den = 1 then
        if a = 0 && b.num < 0 then .inf else .fin (qpowInt a b.num)
      else if a < 0 then .nan else .finUnknown
  | .inf, .fin b => if b = 0 then .fin 1 else if 0 < b then .inf else .fin 0
  | .negInf, .fin b =>
      if b = 0 then .fin 1
      else if 0 < b then (if b.den = 1 && b.num % 2 = 1 then .negInf else .inf)
      else .fin 0
  | .fin a, .inf => if a = 1 || a = -1 then .nan else if a < -1 || 1 < a then .inf else .fin 0
  | .fin a, .negInf => if a = 1 || a = -1 then .nan else if a < -1 || 1 < a then .fin 0 else .inf
  | .inf, .inf => .inf
  | .inf, .negInf => .fin 0
  | .negInf, .inf => .inf
  | .negInf, .negInf => .fin 0

/-- Host `===` on doubles (used by the `EQ` native after its NaN checks). -/
def JSNum.eqb : JSNum → JSNum → Bool
  | .fin a, .fin b => a = b
  | .inf, .inf => true
  | .negInf, .negInf => true
  | _, _ => false

/-- Host `>= 0` on doubles (used by `POS` after its NaN check). -/
def JSNum.ge0 : JSNum → Bool
  | .fin a => 0 ≤ a
  | .inf => true
  | _ => false

/-- Host `< 0` on doubles (used by `NEG` after its NaN check). -/
def JSNum.lt0 : JSNum → Bool
  | .fin a => a < 0
  | .negInf => true
  | _ => false

/-- Host `String(number)` rendering.  Integers render exactly as on the
host; non-integral rationals and `finUnknown` get marker renderings (no
claim verified here inspects them — see the header). -/
def jsNumToString : JSNum → String
  | .nan => "NaN"
  | .inf => "Infinity"
  | .negInf => "-Infinity"
  | .finUnknown => "<unrepresentable double>"
  | .fin q => if q.den = 1 then toString q.num else toString q.num ++ "/" ++ toString q.den

/-- The closed set of native operators the driver installs with
`defineNative`.  A `Native`'s `value` field is a host closure; since every
closure the program ever builds comes from exactly one of the driver's
`defineNative` calls, a tag is a faithful identity for it. -/
inductive NTag where
  | ADD | ATOM | CAR | CDR | CONS | DEF | DIV | EQ | EVAL | EXP
  | MULT | NEG | POS | PRINT | REVERSE | SET | SETQ | SQUARE | SUB
deriving DecidableEq

/-- The `.name` property of the host function behind a tag (used by the
pretty-printer's `<Native: NAME>` rendering). -/
def NTag.fnName : NTag → String
  | .ADD => "ADD"
  | .ATOM => "ATOM"
  | .CAR => "CAR"
  | .CDR => "CDR"
  | .CONS => "CONS"
  | .DEF => "DEF"
  | .DIV => "DIV"
  | .EQ => "EQ"
  | .EVAL => "EVAL"
  | .EXP => "EXP"
  | .MULT => "MULT"
  | .NEG => "NEG"
  | .POS => "POS"
  | .PRINT => "PRINT"
  | .REVERSE => "REVERSE"
  | .SET => "SET"
  | .SETQ => "SETQ"
  | .SQUARE => "SQUARE"
  | .SUB => "SUB"

/-- The runtime value model (`Atom | List | Method | Native` of
`Interpreter.ts`, minus the unobserved `parent` field).  A list's element
array is typed `Parameter[]` in the source, but the `as`-casts in `CONS`
(and friends) let any runtime value flow into it, so elements here are
full `Value`s.  A `Method`'s `value` is the `[name, params, body]` triple
`DEF` stores. -/
inductive Value where
  | atom (escaped : Bool) (text : String)
  | lst (escaped : Bool) (elems : List Value)
  | method (name params body : Value)
  | native (tag : NTag)

/-- The `escaped` field read generically off any value (`Method` and
`Native` declare it `false`). -/
def Value.escapedOf : Value → Bool
  | .atom e _ => e
  | .lst e _ => e
  | .method _ _ _ => false
  | .native _ => false

/-- `String.toUpperCase` of the host, on the ASCII range the interpreter
uses (modelled character-wise to stay kernel-computable). -/
def upperStr (s : String) : String := String.mk (s.data.map Char.toUpper)

/-- `isTrue` of the driver: an atom whose upper-cased text is `TRUE`. -/
def isTrueV : Value → Bool
  | .atom _ t => upperStr t = "TRUE"
  | _ => false

/-- `isNil` of the driver: a list with no elements. -/
def isNilV : Value → Bool
  | .lst _ es => es.isEmpty
  | _ => false

/-- `getTrue` of the driver: the canonical true atom. -/
def getTrue : Value := .atom false "TRUE"

/-- `getNil` of the driver: the canonical empty list. -/
def getNil : Value := .lst false []

/-- The environment (`Memory = Map<string, Value>`), as an association
list; `mget` reads the first binding of a key. -/
abbrev Memory := List (String × Value)

/-- `Map.prototype.get`. -/
def mget (k : String) : Memory → Option Value
  | [] => none
  | (k', v) :: r => if k' = k then some v else mget k r

/-- `Map.prototype.set` (prepending; observationally equivalent for `mget`). -/
def mset (k : String) (v : Value) (m : Memory) : Memory := (k, v) :: m

/-- Evaluation outcome: a program error carrying the thrown message, or
fuel exhaustion of the model (never a program behaviour). -/
inductive Err where
  | fuelOut : Err
  | err (msg : String) : Err
deriving DecidableEq

/-- Result of `fetch` / `execute`: the value produced together with the
final state of the caller's (mutable) memory. -/
abbrev Res := Except Err (Value × Memory)

/-- The apostrophe character (the parser's quote marker). -/
def quoteChar : Char := Char.ofNat 39

/-- State of the single-pass parser of `parse` (`Interpreter.ts`):
the in-progress atom (its quote flag and accumulated text), the pending
quote bit, the stack of open lists innermost-first (each frame holds the
list's quote flag and the elements pushed so far), and the completed
top-level statements. -/
structure PState where
  atom : Option (Bool × String)
  escaped : Bool
  stack : List (Bool × List Value)
  statements : List Value

/-- The initial parser state. -/
def PState.init : PState := ⟨none, false, [], []⟩

/-- Flush the in-progress atom (if any) into the innermost open list.
In the source this is `list.value.push(atom); atom = null`. -/
def flushAtom (a : Option (Bool × String)) : List (Bool × List Value) → List (Bool × List Value)
  | [] => []
  | (e, es) :: r =>
      match a with
      | none => (e, es) :: r
      | some (ae, at') => (e, es ++ [Value.atom ae at']) :: r

/-- One character of `parse`'s `switch` (`Interpreter.ts`, lines 41-86). -/
def parseStep (st : PState) (c : Char) : Except String PState :=
  if c = quoteChar then
    match st.atom with
    | some _ => .error "Cannot escape in the middle of an atom."
    | none => .ok { st with escaped := true }
  else if c = '(' then
    -- a new list is created with the pending quote bit; if it has a parent,
    -- the pending atom and then the new (still empty) list are pushed into
    -- it — functionally, the new list is appended to the parent when closed
    match st.stack with
    | [] => .ok { st with stack := [(st.escaped, [])], escaped := false }
    | fr :: r =>
        .ok { st with
                stack := (st.escaped, []) :: flushAtom st.atom (fr :: r),
                atom := none, escaped := false }
  else if c = ')' then
    match st.stack with
    | [] => .error "Unexpected closing parenthesis. Perhaps you added an extra \x27)\x27?"
    | fr :: r =>
        match flushAtom st.atom [fr] with
        | [] => .error "Unexpected closing parenthesis. Perhaps you added an extra \x27)\x27?"
        | (e, es) :: _ =>
            let closed := Value.lst e es
            match r with
            | [] => .ok { st with atom := none, stack := [],
                                  statements := st.statements ++ [closed] }
            | fr2 :: r2 =>
                .ok { st with atom := none,
                              stack := (fr2.1, fr2.2 ++ [closed]) :: r2 }
  else if c = ' ' then
    match st.atom with
    | none => .ok st
    | some _ =>
        match st.stack with
        | [] => .error "Cannot declare atom outside of a statement."
        | fr :: r => .ok { st with atom := none, stack := flushAtom st.atom (fr :: r) }
  else
    match st.atom with
    | none =>
        match st.stack with
        | [] => .error "Cannot declare atom outside of a statement."
        | (e, _) :: _ =>
            .ok { st with atom := some (st.escaped || e, String.mk [c]), escaped := false }
    | some (ae, t) => .ok { st with atom := some (ae, t ++ String.mk [c]) }

/-- Fold `parseStep` over the source characters. -/
def parseChars : PState → List Char → Except String PState
  | st, [] => .ok st
  | st, c :: r => do
      let st' ← parseStep st c
      parseChars st' r

/-- `parse(program)` (`Interpreter.ts`, lines 34-90): run the character
loop, then fail if a list is still open. -/
def parse (program : String) : Except String (List Value) := do
  let st ← parseChars PState.init program.data
  match st.stack with
  | [] => .ok st.statements
  | _ => .error "Unclosed statement. Perhaps you missed a \x27)\x27?"

/-- `Number(v.value)` for a fetched value `v`: an atom's text goes through
string coercion; an empty element array coerces to `0` (`Number([]) = 0` on
the host); a non-empty element array, a method's `[name, params, body]`
array and a native's closure all coerce to NaN. -/
def coerceNum : Value → JSNum
  | .atom _ t => jsToNumber t
  | .lst _ [] => .fin 0
  | .lst _ (_ :: _) => .nan
  | .method _ _ _ => .nan
  | .native _ => .nan

/-- One recursion level of the evaluator: the three mutually recursive
entry points of the semantic core.  `toStr` is the driver's `toString`
pretty-printer (it recurses into `fetch`/`execute`, and `PRINT` calls it,
so it lives in the same recursive knot). -/
structure Evaluator where
  fetch : Value → Memory → Res
  execute : Value → Memory → Res
  toStr : Value → Memory → Bool → Except Err (String × Memory)

/-- The loop body shared by `ADD` and `MULT`: fetch each parameter in
order, coerce its `value` through `Number`, throw `msg` on the first NaN,
and fold the host arithmetic over the rest. -/
def numFold (ev : Evaluator) (msg : String) (op : JSNum → JSNum → JSNum) :
    List Value → JSNum → Memory → Except Err (JSNum × Memory)
  | [], acc, mem => .ok (acc, mem)
  | p :: rest, acc, mem => do
      let (v, mem') ← ev.fetch p mem
      let x := coerceNum v
      if x.isNaN then .error (.err msg)
      else numFold ev msg op rest (op acc x) mem'

/-- `ADD` (`Interpreter.ts`, lines 233-242). -/
def ADD (ev : Evaluator) (ps : List Value) (mem : Memory) : Res :=
  if ps.length < 2 then
    let n := ps.length
    .error (.err s!"ADD: Expected 2 or more arguments, got {n} instead.")
  else do
    let (sum, mem') ← numFold ev "ADD: One or more parameters are not a number" .add ps (.fin 0) mem
    .ok (.atom false (jsNumToString sum), mem')

/-- `ATOM` (`Interpreter.ts`, lines 244-248). -/
def ATOM (ev : Evaluator) (ps : List Value) (mem : Memory) : Res :=
  match ps with
  | [p0] => do
      let (v, mem') ← ev.fetch p0 mem
      match v with
      | .atom _ _ => .ok (getTrue, mem')
      | _ => if isTrueV v || isNilV v then .ok (getTrue, mem') else .ok (getNil, mem')
  | _ =>
      let n := ps.length
      .error (.err s!"ATOM: Expected 1 argument, got {n} instead.")

/-- `CAR` (`Interpreter.ts`, lines 250-260).  The shallow copy of the first
element copies every field but `parent`, hence is the identity here. -/
def CAR (ev : Evaluator) (ps : List Value) (mem : Memory) : Res :=
  match ps with
  | [p0] => do
      let (v, mem') ← ev.fetch p0 mem
      match v with
      | .lst _ (h :: _) => .ok (h, mem')
      | _ => .error (.err "CAR: Parameter must be a non-NIL list.")
  | _ =>
      let n := ps.length
      .error (.err s!"CAR: Expected 1 argument, got {n} instead.")

/-- `CDR` (`Interpreter.ts`, lines 262-279): a fresh *quoted* list of
(shallow copies of) the tail elements. -/
def CDR (ev : Evaluator) (ps : List Value) (mem : Memory) : Res :=
  match ps with
  | [p0] => do
      let (v, mem') ← ev.fetch p0 mem
      match v with
      | .lst _ (_ :: t) => .ok (.lst true t, mem')
      | _ => .error (.err "CDR: Parameter must be a non-NIL list.")
  | _ =>
      let n := ps.length
      .error (.err s!"CDR: Expected 1 argument, got {n} instead.")

/-- `CONS` (`Interpreter.ts`, lines 281-299): fetch both, require the right
to be a list, build a fresh *quoted* list. -/
def CONS (ev : Evaluator) (ps : List Value) (mem : Memory) : Res :=
  match ps with
  | [p0, p1] => do
      let (left, mem1) ← ev.fetch p0 mem
      let (right, mem2) ← ev.fetch p1 mem1
      match right with
      | .lst _ es => .ok (.lst true (left :: es), mem2)
      | _ => .error (.err "CONS: Parameter must be a list.")
  | _ =>
      let n := ps.length
      .error (.err s!"CONS: Expected 2 arguments, got {n} instead.")

/-- `DEF` (`Interpreter.ts`, lines 301-322).  Checks, in source order: the
name is an unquoted atom; the params are an unquoted list of exactly one
element whose kind is atom (the element's own quote flag and text are NOT
checked); the body is an unquoted list.  Binds and returns the method. -/
def DEF (_ev : Evaluator) (ps : List Value) (mem : Memory) : Res :=
  match ps with
  | [pName, pParams, pBody] =>
      match pName with
      | .atom false nmText =>
          match pParams with
          | .lst false [.atom pe pt] =>
              match pBody with
              | .lst false bodyEs =>
                  let m := Value.method pName (.lst false [.atom pe pt]) (.lst false bodyEs)
                  .ok (m, mset (upperStr nmText) m mem)
              | _ => .error (.err "DEF: Illegal function definition.")
          | _ => .error (.err "DEF: Illegal function arguments.")
      | _ => .error (.err "DEF: Illegal function name.")
  | _ =>
      let n := ps.length
      .error (.err s!"DEF: Expected 3 arguments, got {n} instead.")

/-- `DIV` (`Interpreter.ts`, lines 324-331). -/
def DIV (ev : Evaluator) (ps : List Value) (mem : Memory) : Res :=
  match ps with
  | [p0, p1] => do
      let (v0, mem1) ← ev.fetch p0 mem
      let (v1, mem2) ← ev.fetch p1 mem1
      let dividend := coerceNum v0
      let divisor := coerceNum v1
      if dividend.isNaN then .error (.err "DIV: Dividend is not a number")
      else if divisor.isNaN then .error (.err "DIV: Divisor is not a number")
      else .ok (.atom false (jsNumToString (dividend.div divisor)), mem2)
  | _ =>
      let n := ps.length
      .error (.err s!"DIV: Expected 2 arguments, got {n} instead.")

/-- `EQ` (`Interpreter.ts`, lines 333-340). -/
def EQ (ev : Evaluator) (ps : List Value) (mem : Memory) : Res :=
  match ps with
  | [p0, p1] => do
      let (v0, mem1) ← ev.fetch p0 mem
      let (v1, mem2) ← ev.fetch p1 mem1
      let left := coerceNum v0
      let right := coerceNum v1
      if left.isNaN then .error (.err "EQ: Left-hand parameter is not a number")
      else if right.isNaN then .error (.err "EQ: Right-hand parameter is not a number")
      else if left.eqb right then .ok (getTrue, mem2) else .ok (getNil, mem2)
  | _ =>
      let n := ps.length
      .error (.err s!"EQ: Expected 2 arguments, got {n} instead.")

/-- `EVAL` (`Interpreter.ts`, lines 342-359): fetch; if the result is a
list, re-wrap its elements as an *unquoted* list and execute it; otherwise
return it. -/
def EVAL (ev : Evaluator) (ps : List Value) (mem : Memory) : Res :=
  match ps with
  | [p0] => do
      let (v, mem') ← ev.fetch p0 mem
      match v with
      | .lst _ es => ev.execute (.lst false es) mem'
      | _ => .ok (v, mem')
  | _ =>
      let n := ps.length
      .error (.err s!"EVAL: Expected 1 argument, got {n} instead.")

/-- `EXP` (`Interpreter.ts`, lines 361-368). -/
def EXP (ev : Evaluator) (ps : List Value) (mem : Memory) : Res :=
  match ps with
  | [p0, p1] => do
      let (v0, mem1) ← ev.fetch p0 mem
      let (v1, mem2) ← ev.fetch p1 mem1
      let base := coerceNum v0
      let exponent := coerceNum v1
      if base.isNaN then .error (.err "EXP: Base is not a number")
      else if exponent.isNaN then .error (.err "EXP: Exponent is not a number")
      else .ok (.atom false (jsNumToString (base.pow exponent)), mem2)
  | _ =>
      let n := ps.length
      .error (.err s!"EXP: Expected 2 arguments, got {n} instead.")

/-- `MULT` (`Interpreter.ts`, lines 370-379). -/
def MULT (ev : Evaluator) (ps : List Value) (mem : Memory) : Res :=
  if ps.length < 2 then
    let n := ps.length
    .error (.err s!"MULT: Expected 2 or more arguments, got {n} instead.")
  else do
    let (product, mem') ← numFold ev "MULT: One or more parameters are not a number" .mul ps (.fin 1) mem
    .ok (.atom false (jsNumToString product), mem')

/-- `NEG` (`Interpreter.ts`, lines 381-386). -/
def NEG (ev : Evaluator) (ps : List Value) (mem : Memory) : Res :=
  match ps with
  | [p0] => do
      let (v, mem') ← ev.fetch p0 mem
      let x := coerceNum v
      if x.isNaN then .error (.err "NEG: Parameter is not a number")
      else if x.lt0 then .ok (getTrue, mem') else .ok (getNil, mem')
  | _ =>
      let n := ps.length
      .error (.err s!"NEG: Expected 1 argument, got {n} instead.")

/-- `POS` (`Interpreter.ts`, lines 388-393). -/
def POS (ev : Evaluator) (ps : List Value) (mem : Memory) : Res :=
  match ps with
  | [p0] => do
      let (v, mem') ← ev.fetch p0 mem
      let x := coerceNum v
      if x.isNaN then .error (.err "POS: Parameter is not a number")
      else if x.ge0 then .ok (getTrue, mem') else .ok (getNil, mem')
  | _ =>
      let n := ps.length
      .error (.err s!"POS: Expected 1 argument, got {n} instead.")

/-- Sequential pretty-printing of `PRINT`'s arguments (the `for` loop of
lines 395-398); the rendered text goes to standard output, which is outside
the model — only the memory effects of rendering are kept. -/
def printAll (ev : Evaluator) : List Value → Memory → Except Err Memory
  | [], mem => .ok mem
  | p :: rest, mem => do
      let (_, mem') ← ev.toStr p mem false
      printAll ev rest mem'

/-- `PRINT` (`Interpreter.ts`, lines 395-399); the colour flag is the
out-of-scope CLI switch, modelled off. -/
def PRINT (ev : Evaluator) (ps : List Value) (mem : Memory) : Res := do
  let mem' ← printAll ev ps mem
  .ok (getNil, mem')

/-- `REVERSE` (`Interpreter.ts`, lines 401-418). -/
def REVERSE (ev : Evaluator) (ps : List Value) (mem : Memory) : Res :=
  match ps with
  | [p0] => do
      let (v, mem') ← ev.fetch p0 mem
      match v with
      | .lst _ es => .ok (.lst true es.reverse, mem')
      | _ => .error (.err "REVERSE: Parameter must be a list.")
  | _ =>
      let n := ps.length
      .error (.err s!"REVERSE: Expected 1 argument, got {n} instead.")

/-- `SQUARE` (`Interpreter.ts`, lines 420-425). -/
def SQUARE (ev : Evaluator) (ps : List Value) (mem : Memory) : Res :=
  match ps with
  | [p0] => do
      let (v, mem') ← ev.fetch p0 mem
      let x := coerceNum v
      if x.isNaN then .error (.err "SQUARE: Parameter is not a number")
      else .ok (.atom false (jsNumToString (x.mul x)), mem')
  | _ =>
      let n := ps.length
      .error (.err s!"SQUARE: Expected 1 argument, got {n} instead.")

/-- `SUB` (`Interpreter.ts`, lines 427-434). -/
def SUB (ev : Evaluator) (ps : List Value) (mem : Memory) : Res :=
  match ps with
  | [p0, p1] => do
      let (v0, mem1) ← ev.fetch p0 mem
      let (v1, mem2) ← ev.fetch p1 mem1
      let minuend := coerceNum v0
      let subtrahend := coerceNum v1
      if minuend.isNaN then .error (.err "SUB: Minuend is not a number")
      else if subtrahend.isNaN then .error (.err "SUB: Subtrahend is not a number")
      else .ok (.atom false (jsNumToString (minuend.sub subtrahend)), mem2)
  | _ =>
      let n := ps.length
      .error (.err s!"SUB: Expected 2 arguments, got {n} instead.")

/-- `SET` (`Interpreter.ts`, lines 436-447): fetch both; the left must
fetch to a *quoted* atom that is not `TRUE` (nor nil); bind and return the
right. -/
def SET (ev : Evaluator) (ps : List Value) (mem : Memory) : Res :=
  match ps with
  | [p0, p1] => do
      let (key, mem1) ← ev.fetch p0 mem
      let (value, mem2) ← ev.fetch p1 mem1
      match key with
      | .atom true kt =>
          if isTrueV (.atom true kt) || isNilV (.atom true kt) then
            .error (.err "SET: Left-hand parameter is illegal.")
          else .ok (value, mset (upperStr kt) value mem2)
      | _ => .error (.err "SET: Left-hand parameter is illegal.")
  | _ =>
      let n := ps.length
      .error (.err s!"SET: Expected 2 arguments, got {n} instead.")

/-- `SETQ` (`Interpreter.ts`, lines 449-458): fetch the right first; the
left, *unfetched*, must be an unquoted atom that is not `TRUE` (nor nil);
bind and return the right. -/
def SETQ (ev : Evaluator) (ps : List Value) (mem : Memory) : Res :=
  match ps with
  | [p0, p1] => do
      let (value, mem1) ← ev.fetch p1 mem
      match p0 with
      | .atom false kt =>
          if isTrueV (.atom false kt) || isNilV (.atom false kt) then
            .error (.err "SETQ: Left-hand parameter is illegal.")
          else .ok (value, mset (upperStr kt) value mem1)
      | _ => .error (.err "SETQ: Left-hand parameter is illegal.")
  | _ =>
      let n := ps.length
      .error (.err s!"SETQ: Expected 2 arguments, got {n} instead.")

/-- Dispatch a native tag to its implementation. -/
def applyNative (ev : Evaluator) : NTag → List Value → Memory → Res
  | .ADD => ADD ev
  | .ATOM => ATOM ev
  | .CAR => CAR ev
  | .CDR => CDR ev
  | .CONS => CONS ev
  | .DEF => DEF ev
  | .DIV => DIV ev
  | .EQ => EQ ev
  | .EVAL => EVAL ev
  | .EXP => EXP ev
  | .MULT => MULT ev
  | .NEG => NEG ev
  | .POS => POS ev
  | .PRINT => PRINT ev
  | .REVERSE => REVERSE ev
  | .SET => SET ev
  | .SETQ => SETQ ev
  | .SQUARE => SQUARE ev
  | .SUB => SUB ev

/-- Call a memory-resident value as if it were a native (the cadr-family
fallback casts `memory.get("CAR")` with `as Native` and calls `.value`
without checking the kind; on a non-native the host would throw a
`TypeError`). -/
def callValue (ev : Evaluator) (f : Value) (args : List Value) (mem : Memory) : Res :=
  match f with
  | .native t => applyNative ev t args mem
  | _ => .error (.err "TypeError: value is not a function.")

/-- The cadr-family synthesis loop (`Interpreter.ts`, lines 126-127):
`cs` are the middle letters of the *raw* (not upper-cased) spelling, taken
right-to-left; each step applies the `CAR` native if the raw letter equals
`A` (upper-case comparison `=== "A"`), the `CDR` native otherwise, to the
current parameter list, wrapping the result as the next sole parameter. -/
def cadrSteps (ev : Evaluator) (carV cdrV : Value) :
    List Char → List Value → Memory → Except Err (List Value × Memory)
  | [], res, mem => .ok (res, mem)
  | c :: rest, res, mem => do
      let (v, mem') ← callValue ev (if c = 'A' then carV else cdrV) res mem
      cadrSteps ev carV cdrV rest [v] mem'

/-- The regular expression `/^C[AD]+R$/` applied to a character list:
a `C`, at least one `A`/`D`, then an `R`. -/
def cadrPattern (cs : List Char) : Bool :=
  decide (3 ≤ cs.length) && cs.head? = some 'C' && cs.getLast? = some 'R' &&
    ((cs.drop 1).dropLast.all fun c => c = 'A' || c = 'D')

/-- The middle letters of a cadr-family spelling, in source order. -/
def midLetters (s : String) : List Char := (s.data.drop 1).dropLast

/-- The formal-parameter key of a method: `value[1].value[0].value
.toUpperCase()`.  On the malformed shapes `DEF` can never produce, the
host would throw a `TypeError`. -/
def methodParamKey : Value → Except Err String
  | .lst _ (.atom _ t :: _) => .ok (upperStr t)
  | _ => .error (.err "TypeError: method parameter list is malformed.")

/-- One level of `fetch` (`Interpreter.ts`, lines 92-113). -/
def mkFetch (ev : Evaluator) (p : Value) (mem : Memory) : Res :=
  match p with
  | .atom esc t =>
      let u := upperStr t
      if !esc && u ≠ "TRUE" && u ≠ "NIL" && (jsToNumber t).isNaN then
        match mget u mem with
        | none => .error (.err ("Unknown variable \x27" ++ t ++ "\x27."))
        | some v => .ok (v, mem)
      else if u = "NIL" then .ok (.lst false [], mem)
      else .ok (p, mem)
  | .lst false (e :: es) => do
      let (r, mem1) ← ev.execute (.lst false (e :: es)) mem
      ev.fetch r mem1
  | _ => .ok (p, mem)

/-- One level of `execute` (`Interpreter.ts`, lines 115-138). -/
def mkExecute (ev : Evaluator) (l : Value) (mem : Memory) : Res :=
  match l with
  | .lst true es => .ok (.lst true es, mem)
  | .lst false [] => .ok (.lst false [], mem)
  | .lst false (h :: args) =>
      match h with
      | .lst _ _ => .error (.err "A function call cannot be a list.")
      | .atom _ nm =>
          match mget (upperStr nm) mem with
          | none =>
              if cadrPattern (upperStr nm).data then
                match mget "CAR" mem, mget "CDR" mem with
                | some carV, some cdrV => do
                    let (res, mem') ← cadrSteps ev carV cdrV (midLetters nm).reverse args mem
                    match res with
                    | r :: _ => .ok (r, mem')
                    | [] => .error (.err "TypeError: empty cadr synthesis result.")
                | _, _ => .error (.err "CAR or CDR not defined natively.")
              else .error (.err ("Unknown function call \x27" ++ nm ++ "\x27."))
          | some (.native t) => applyNative ev t args mem
          | some (.method _ mParams mBody) =>
              -- `new Map(memory)` snapshots the caller's memory BEFORE the
              -- argument fetch runs; the caller's own memory then carries
              -- the fetch's mutations, while the body runs on the snapshot
              -- extended with the single parameter binding and its
              -- mutations are discarded on return
              if args.isEmpty then
                .error (.err "A non-native function call must contain an argument.")
              else
                match args with
                | a :: _ => do
                    let key ← methodParamKey mParams
                    let (argv, mem1) ← ev.fetch a mem
                    let (r, _) ← ev.execute mBody (mset key argv mem)
                    .ok (r, mem1)
                | [] => .error (.err "A non-native function call must contain an argument.")
          | some _ => .error (.err ("Illegal function call \x27" ++ nm ++ "\x27."))
      | _ =>
          -- a `Method`/`Native` in head position: the source reads `.value`
          -- (an array / a closure) and calls `.toUpperCase()` on it, which
          -- the host rejects with a TypeError
          .error (.err "TypeError: head of a call must carry text.")
  | _ => .error (.err "TypeError: execute expects a list.")

/-- The `name` text used by the pretty-printer's `<Function: NAME>`: the
name atom's text (on the shapes `DEF` cannot produce, the host would
stringify the field instead; a marker suffices, nothing observes it). -/
def valueNameText : Value → String
  | .atom _ t => t
  | _ => "[object Object]"

/-- Sequential rendering of a quoted list's elements (`value.value.map`,
threading the shared mutable memory left to right). -/
def strAll (ev : Evaluator) : List Value → Memory → Bool → Except Err (List String × Memory)
  | [], mem, _ => .ok ([], mem)
  | p :: rest, mem, useColor => do
      let (s, mem1) ← ev.toStr p mem useColor
      let (ss, mem2) ← strAll ev rest mem1 useColor
      .ok (s :: ss, mem2)

/-- One level of the driver's `toString` pretty-printer (lines 206-230).
Colour escapes reproduce the source exactly; note that an unquoted
non-empty list is executed and re-printed with colour OFF (the source
drops the `useColor` argument there). -/
def mkToStr (ev : Evaluator) (p : Value) (mem : Memory) (useColor : Bool) :
    Except Err (String × Memory) := do
  let (value, mem1) ← ev.fetch p mem
  match value with
  | .atom _ t =>
      if useColor then
        if isTrueV value || !(jsToNumber t).isNaN then
          .ok ("\x1b[93m" ++ t ++ "\x1b[0m", mem1)
        else if isNilV value then .ok ("\x1b[90m" ++ t ++ "\x1b[0m", mem1)
        else .ok ("\x1b[32m" ++ t ++ "\x1b[0m", mem1)
      else .ok (t, mem1)
  | .lst esc es =>
      if es.isEmpty then
        .ok ((if useColor then "\x1b[90mNIL\x1b[0m" else "NIL"), mem1)
      else if esc then do
        let (ss, mem2) ← strAll ev es mem1 useColor
        .ok ("( " ++ String.intercalate " " ss ++ " )", mem2)
      else do
        let (r, mem2) ← ev.execute value mem1
        ev.toStr r mem2 false
  | .method mNm _ _ =>
      let nm := valueNameText mNm
      if useColor then .ok ("\x1b[96m<Function: " ++ nm ++ ">\x1b[0m", mem1)
      else .ok ("<Function: " ++ nm ++ ">", mem1)
  | .native t =>
      let nm := t.fnName
      if useColor then .ok ("\x1b[96m<Native: " ++ nm ++ ">\x1b[0m", mem1)
      else .ok ("<Native: " ++ nm ++ ">", mem1)

/-- The fuel-indexed evaluator: `evalN 0` is out of fuel everywhere;
`evalN (n+1)` runs one source-level recursion step on top of `evalN n`. -/
def evalN : ℕ → Evaluator
  | 0 => ⟨fun _ _ => .error .fuelOut, fun _ _ => .error .fuelOut, fun _ _ _ => .error .fuelOut⟩
  | n + 1 => ⟨mkFetch (evalN n), mkExecute (evalN n), mkToStr (evalN n)⟩

/-- `fetch` at recursion depth `n`. -/
def fetch (n : ℕ) : Value → Memory → Res := (evalN n).fetch

/-- `execute` at recursion depth `n`. -/
def execute (n : ℕ) : Value → Memory → Res := (evalN n).execute

/-- The driver's initial memory: the `defineNative` calls of `index.ts`,
in source order (keys are upper-cased by `defineNative`). -/
def nativePairs : List (String × NTag) :=
  [("ADD", .ADD), ("+", .ADD), ("ATOM", .ATOM), ("CAR", .CAR), ("CDR", .CDR),
   ("CONS", .CONS), ("DEF", .DEF), ("EQ", .EQ), ("EVAL", .EVAL), ("EXP", .EXP),
   ("DIV", .DIV), ("/", .DIV), ("MULT", .MULT), ("*", .MULT), ("NEG", .NEG),
   ("POS", .POS), ("PRINT", .PRINT), ("REVERSE", .REVERSE), ("SUB", .SUB),
   ("-", .SUB), ("SQUARE", .SQUARE), ("SET", .SET), ("SETQ", .SETQ)]

/-- The memory the driver passes to the first statement. -/
def initialMemory : Memory :=
  nativePairs.foldl (fun m p => mset p.1 (.native p.2) m) []

/-- Fetch-fixed values: those `fetch` returns unchanged without touching
memory (read off the branch structure of `fetch`): an atom that is quoted,
reserved `TRUE`, or numeric — in every case with upper-cased text other
than `NIL` —, a quoted list, the empty list, and methods and natives. -/
def selfF : Value → Bool
  | .atom esc t => upperStr t ≠ "NIL" && (esc || upperStr t = "TRUE" || !(jsToNumber t).isNaN)
  | .lst true _ => true
  | .lst false es => es.isEmpty
  | .method _ _ _ => true
  | .native _ => true

/-- The parameter-list shape `DEF` actually enforces: an unquoted list of
exactly one element whose kind is atom. -/
def defParamsShape : Value → Bool
  | .lst false [.atom _ _] => true
  | _ => false

mutual

/-- Every method embedded anywhere in a value has a parameter list of the
shape `DEF` enforces (the provable part of the spec's Method invariant). -/
def valOK : Value → Bool
  | .atom _ _ => true
  | .lst _ es => valOKList es
  | .method nm ps bd => defParamsShape ps && valOK nm && valOK ps && valOK bd
  | .native _ => true

/-- `valOK` over an element list. -/
def valOKList : List Value → Bool
  | [] => true
  | v :: r => valOK v && valOKList r

end

/-- Every binding of a memory satisfies `valOK`. -/
def memOK (m : Memory) : Bool := m.all fun p => valOK p.2

mutual

/-- The quote-propagation shape `parse` actually produces: inside every
list that carries the quote flag, every DIRECT atom child carries it too
(nothing is promised across an unquoted nested list). -/
def escOK : Value → Bool
  | .atom _ _ => true
  | .lst e es => escList e es
  | .method _ _ _ => false
  | .native _ => false

/-- One element of a list whose quote flag is `e`: a direct atom child
must be escaped when `e` is; a nested list is only checked internally. -/
def escChild : Bool → Value → Bool
  | e, .atom a _ => !e || a
  | _, .lst e2 es2 => escList e2 es2
  | _, .method _ _ _ => false
  | _, .native _ => false

/-- `escChild` over an element list. -/
def escList : Bool → List Value → Bool
  | _, [] => true
  | e, c :: r => escChild e c && escList e r

end

/-- Invariant maintained by the parser across its whole run: completed
statements and frame elements satisfy the one-level quote propagation
(`escOK` / `escList`), a pending atom carries the quote flag whenever the
innermost open list does, and a pending atom implies an open list. -/
def pInv (st : PState) : Prop :=
  (∀ v ∈ st.statements, escOK v = true) ∧
  (∀ fr ∈ st.stack, escList fr.1 fr.2 = true) ∧
  (∀ ae t fr, st.atom = some (ae, t) → st.stack.head? = some fr → fr.1 = true → ae = true) ∧
  (st.atom.isSome → st.stack ≠ [])

/-- Evaluation results that only produce `valOK` values and `memOK`
memories. -/
def resOK (res : Res) : Prop :=
  ∀ v m, res = .ok (v, m) → valOK v = true ∧ memOK m = true

/-- A recursion level of the evaluator that preserves the Method-shape
invariant through all three entry points. -/
def evOK (ev : Evaluator) : Prop :=
  (∀ v mem, valOK v = true → memOK mem = true → resOK (ev.fetch v mem)) ∧
  (∀ v mem, valOK v = true → memOK mem = true → resOK (ev.execute v mem)) ∧
  (∀ v mem b s m, valOK v = true → memOK mem = true →
    ev.toStr v mem b = .ok (s, m) → memOK m = true)

/-- The quoted literal `\x27(1 2 3)`. -/
def qList123 : Value := .lst true [.atom true "1", .atom true "2", .atom true "3"]

/-- The parsed statement `(cadr \x27(1 2 3))` (lower-case spelling). -/
def cadrLowerStmt : Value := .lst false [.atom false "cadr", qList123]

/-- The parsed statement `(CADR \x27(1 2 3))` (upper-case spelling). -/
def cadrUpperStmt : Value := .lst false [.atom false "CADR", qList123]

/-- The program shape `(CONS (CAR L) (CDR L))` for a given literal `L`. -/
def consCarCdr (L : Value) : Value :=
  .lst false [.atom false "CONS",
              .lst false [.atom false "CAR", L],
              .lst false [.atom false "CDR", L]]

/-- The parsed literal `\x27((A B) C)`: a quoted list whose first element
is an unquoted nested list (whose atoms `parse` leaves unescaped). -/
def nestedQuoted : Value :=
  .lst true [.lst false [.atom false "A", .atom false "B"], .atom true "C"]

/-- The parsed statement `(DEF F (TRUE) (ADD N 1))`. -/
def defTrueStmt : Value :=
  .lst false [.atom false "DEF", .atom false "F",
              .lst false [.atom false "TRUE"],
              .lst false [.atom false "ADD", .atom false "N", .atom false "1"]]

/-- The method value `(DEF F (TRUE) (ADD N 1))` constructs: its formal
parameter is the reserved atom `TRUE`. -/
def defTrueMethod : Value :=
  .method (.atom false "F") (.lst false [.atom false "TRUE"])
          (.lst false [.atom false "ADD", .atom false "N", .atom false "1"])

/-- The parsed statement `(ADD 1 NIL)`. -/
def addNilStmt : Value :=
  .lst false [.atom false "ADD", .atom false "1", .atom false "NIL"]

/-- A user method `F` with formal parameter `N` and body `(SETQ G N)`
(used to witness frame isolation). -/
def wMethod : Value :=
  .method (.atom false "F") (.lst false [.atom false "N"])
          (.lst false [.atom false "SETQ", .atom false "G", .atom false "N"])

/-- `initialMemory` extended with the binding `F := wMethod`. -/
def wMem : Memory := mset "F" wMethod initialMemory

/-- The parsed statement `(F 5)`. -/
def wCall : Value := .lst false [.atom false "F", .atom false "5"]


end Interp

namespace Interp

/-! ### Generic unfolding and helper lemmas -/

theorem fetch_succ (n : ℕ) (v : Value) (mem : Memory) :
    fetch (n + 1) v mem = mkFetch (evalN n) v mem := rfl

theorem execute_succ (n : ℕ) (v : Value) (mem : Memory) :
    execute (n + 1) v mem = mkExecute (evalN n) v mem := rfl

theorem evalN_fetch (n : ℕ) : (evalN (n + 1)).fetch = mkFetch (evalN n) := rfl

theorem evalN_execute (n : ℕ) : (evalN (n + 1)).execute = mkExecute (evalN n) := rfl

theorem evalN_toStr (n : ℕ) : (evalN (n + 1)).toStr = mkToStr (evalN n) := rfl

/-- A fetch-fixed value is returned unchanged by one level of `fetch`,
whatever the lower levels are: none of its branches recurse. -/
theorem mkFetch_selfF (ev : Evaluator) (v : Value) (mem : Memory) (h : selfF v = true) :
    mkFetch ev v mem = .ok (v, mem) := by
  cases v with
  | atom esc t =>
      simp only [selfF, Bool.and_eq_true, Bool.or_eq_true, decide_eq_true_eq,
        Bool.not_eq_true'] at h
      obtain ⟨hnil, hrest⟩ := h
      simp only [mkFetch]
      rcases hrest with (h' | h') | h' <;> simp [h', hnil]
  | lst esc es =>
      cases esc with
      | true => simp [mkFetch]
      | false =>
          cases es with
          | nil => simp [mkFetch]
          | cons a r => simp [selfF] at h
  | method nm ps bd => simp [mkFetch]
  | native t => simp [mkFetch]

/-- `fetch` on a fetch-fixed value, at any positive depth. -/
theorem fetch_selfF (n : ℕ) (v : Value) (mem : Memory) (h : selfF v = true) :
    fetch (n + 1) v mem = .ok (v, mem) :=
  mkFetch_selfF (evalN n) v mem h

/-- Head-native dispatch: an unquoted non-empty call whose head atom is
bound to a native invokes that native on the raw argument tail. -/
theorem mkExecute_native (ev : Evaluator) (he : Bool) (nm : String) (args : List Value)
    (mem : Memory) (tag : NTag) (hl : mget (upperStr nm) mem = some (.native tag)) :
    mkExecute ev (.lst false (.atom he nm :: args)) mem = applyNative ev tag args mem := by
  simp [mkExecute, hl]

/-- Monadic bind on an `ok` result (reduction lemma for `do`-chains). -/
theorem okBind {ε α β : Type} (a : α) (f : α → Except ε β) :
    (Except.ok a >>= f : Except ε β) = f a := rfl

/-- Monadic bind on an error (reduction lemma for `do`-chains). -/
theorem errBind {ε α β : Type} (e : ε) (f : α → Except ε β) :
    (Except.error e >>= f : Except ε β) = .error e := rfl

/-- The list branch of `fetch`: execute, then fetch the result. -/
theorem mkFetch_list (ev : Evaluator) (e : Value) (es : List Value) (mem : Memory) :
    mkFetch ev (.lst false (e :: es)) mem = (do
      let (r, mem1) ← ev.execute (.lst false (e :: es)) mem
      ev.fetch r mem1) := rfl

/-! ### C1 -/

/-- C1: the cadr-family fallback is claimed to apply `CAR` for each middle
letter `A` and `CDR` for each `D` under EVERY casing of the name.  The
code matches the name case-insensitively but dispatches on the RAW letter
(`methodName[i] === "A"`), so the lower-case spelling `cadr` applies `CDR`
for both of its middle letters: `(cadr \x27(1 2 3))` evaluates to the quoted
list `( 3 )` (the CDDR), while the upper-case `(CADR \x27(1 2 3))` correctly
evaluates to the atom `2`. -/
theorem C1_cadr_casing_bug :
    parse "(cadr \x27(1 2 3))" = .ok [cadrLowerStmt] ∧
    execute 9 cadrLowerStmt initialMemory = .ok (.lst true [.atom true "3"], initialMemory) ∧
    parse "(CADR \x27(1 2 3))" = .ok [cadrUpperStmt] ∧
    execute 9 cadrUpperStmt initialMemory = .ok (.atom true "2", initialMemory) :=
  ⟨rfl, rfl, rfl, rfl⟩

/-! ### C2 -/

/-- C2 counterexample: the token `Infinity` does not parse as a *finite*
number, yet `fetch` does NOT look it up (and does not fail in an empty
environment): `Number("Infinity")` is not NaN, so the atom self-evaluates. -/
theorem C2_infinity_self_evaluates :
    fetch 1 (.atom false "Infinity") [] = .ok (.atom false "Infinity", []) := rfl

/-- C2 (amended): for an unquoted atom whose upper-cased text is neither
`TRUE` nor `NIL`, the lookup criterion is `isNaN(Number(text))` — NOT
"does not parse as a finite number": when the coercion is NaN, `fetch`
looks the upper-cased text up (failing with the unknown-variable error
when absent, returning the bound value as-is when present); when the
coercion is a number — finite or not, e.g. `Infinity` — the atom is
self-evaluating and returned unchanged. -/
theorem C2_fetch_unquoted_atom (n : ℕ) (t : String) (mem : Memory) :
    ((jsToNumber t).isNaN = true → upperStr t ≠ "TRUE" → upperStr t ≠ "NIL" →
      ((mget (upperStr t) mem = none →
          fetch (n + 1) (.atom false t) mem =
            .error (.err ("Unknown variable \x27" ++ t ++ "\x27."))) ∧
       (∀ v, mget (upperStr t) mem = some v →
          fetch (n + 1) (.atom false t) mem = .ok (v, mem)))) ∧
    ((jsToNumber t).isNaN = false → upperStr t ≠ "NIL" →
      ∀ esc, fetch (n + 1) (.atom esc t) mem = .ok (.atom esc t, mem)) := by
  constructor
  · intro hnan htrue hnil
    constructor
    · intro hnone
      simp [fetch_succ, mkFetch, hnan, htrue, hnil, hnone]
    · intro v hv
      simp [fetch_succ, mkFetch, hnan, htrue, hnil, hv]
  · intro hnan hnil esc
    simp [fetch_succ, mkFetch, hnan, hnil]

theorem C2_fetch_unquoted_atom_witness :
    fetch 1 (.atom false "X") [] = .error (.err ("Unknown variable \x27X\x27.")) ∧
    fetch 1 (.atom false "Infinity") [("X", getTrue)] =
      .ok (.atom false "Infinity", [("X", getTrue)]) :=
  ⟨((C2_fetch_unquoted_atom 0 "X" []).1 rfl (by decide) (by decide)).1 rfl,
   (C2_fetch_unquoted_atom 0 "Infinity" [("X", getTrue)]).2 rfl (by decide) false⟩

/-! ### C3 -/

/-- C3 counterexample: for the quoted list `\x27((A B) C)` — non-empty, but
whose first element is an unquoted nested list — `(CONS (CAR L) (CDR L))`
does not reconstruct `L`: fetching `(CAR L)`\x27s result re-executes the
unquoted `(A B)` and fails on the unknown function `A`. -/
theorem C3_reconstruction_fails_on_nested_list :
    parse "(CONS (CAR \x27((A B) C)) (CDR \x27((A B) C)))" = .ok [consCarCdr nestedQuoted] ∧
    execute 9 (consCarCdr nestedQuoted) initialMemory =
      .error (.err "Unknown function call \x27A\x27.") :=
  ⟨rfl, rfl⟩

/-- C3 (amended): for a non-empty quoted list `L` all of whose elements
are fetch-fixed (quoted atoms other than `NIL`, quoted lists, or empty
lists — which covers every parse-produced quoted list with no unquoted
non-empty nested list and no `NIL` atom), `(CONS (CAR L) (CDR L))`
succeeds and yields a (quoted) list with the same elements in the same
order, leaving memory untouched. -/
theorem C3_cons_car_cdr_reconstructs (n : ℕ) (mem : Memory) (es : List Value)
    (hne : es ≠ [])
    (hself : es.all selfF = true)
    (hcons : mget "CONS" mem = some (.native .CONS))
    (hcar : mget "CAR" mem = some (.native .CAR))
    (hcdr : mget "CDR" mem = some (.native .CDR)) :
    execute (n + 4) (consCarCdr (.lst true es)) mem = .ok (.lst true es, mem) := by
  obtain ⟨h, t, rfl⟩ : ∃ h t, es = h :: t := by
    cases es with
    | nil => exact absurd rfl hne
    | cons a r => exact ⟨a, r, rfl⟩
  have hselfh : selfF h = true := by
    simp only [List.all_cons, Bool.and_eq_true] at hself
    exact hself.1
  have hcarE : (evalN (n + 3)).fetch
      (.lst false [.atom false "CAR", .lst true (h :: t)]) mem = .ok (h, mem) := by
    rw [evalN_fetch, mkFetch_list, evalN_execute,
      mkExecute_native (evalN (n + 1)) false "CAR" [.lst true (h :: t)] mem .CAR hcar]
    simp only [applyNative, CAR]
    rw [evalN_fetch, mkFetch_selfF (evalN n) (Value.lst true (h :: t)) mem rfl]
    simp only [okBind]
    rw [evalN_fetch, mkFetch_selfF (evalN (n + 1)) h mem hselfh]
  have hcdrE : (evalN (n + 3)).fetch
      (.lst false [.atom false "CDR", .lst true (h :: t)]) mem = .ok (.lst true t, mem) := by
    rw [evalN_fetch, mkFetch_list, evalN_execute,
      mkExecute_native (evalN (n + 1)) false "CDR" [.lst true (h :: t)] mem .CDR hcdr]
    simp only [applyNative, CDR]
    rw [evalN_fetch, mkFetch_selfF (evalN n) (Value.lst true (h :: t)) mem rfl]
    simp only [okBind]
    rw [evalN_fetch, mkFetch_selfF (evalN (n + 1)) (.lst true t) mem rfl]
  have e4 : execute (n + 4) = mkExecute (evalN (n + 3)) := rfl
  rw [e4, consCarCdr,
    mkExecute_native (evalN (n + 3)) false "CONS" _ mem .CONS hcons]
  simp only [applyNative, CONS]
  rw [hcarE]
  simp only [okBind]
  rw [hcdrE]
  simp only [okBind]
end Interp

namespace Interp

theorem C3_cons_car_cdr_reconstructs_witness :
    execute 4 (consCarCdr (.lst true [.atom true "A", .atom true "B"])) initialMemory =
      .ok (.lst true [.atom true "A", .atom true "B"], initialMemory) :=
  C3_cons_car_cdr_reconstructs 0 initialMemory [.atom true "A", .atom true "B"]
    (by simp) rfl rfl rfl rfl

/-! ### Method-call branch lemmas -/

/-- The Method branch of `execute` with at least one argument: the host
snapshots the caller\x27s memory (`new Map(memory)`) BEFORE fetching the
argument, binds the formal parameter in the snapshot, executes the body
there, discards the body\x27s memory, and returns the caller\x27s memory as
left by the argument fetch. -/
theorem mkExecute_method (ev : Evaluator) (he : Bool) (nm : String) (a : Value)
    (rest : List Value) (mem : Memory) (mNm mParams mBody : Value)
    (hl : mget (upperStr nm) mem = some (.method mNm mParams mBody)) :
    mkExecute ev (.lst false (.atom he nm :: a :: rest)) mem = (do
      let key ← methodParamKey mParams
      let (argv, mem1) ← ev.fetch a mem
      let (r, _) ← ev.execute mBody (mset key argv mem)
      Except.ok (r, mem1)) := by
  simp [mkExecute, hl]

/-- The Method branch of `execute` with no argument. -/
theorem mkExecute_method_noArg (ev : Evaluator) (he : Bool) (nm : String)
    (mem : Memory) (mNm mParams mBody : Value)
    (hl : mget (upperStr nm) mem = some (.method mNm mParams mBody)) :
    mkExecute ev (.lst false [.atom he nm]) mem =
      .error (.err "A non-native function call must contain an argument.") := by
  simp [mkExecute, hl]

/-! ### C7 -/

/-- C7: when the head of a call resolves to a user Method, the body is
executed against the caller\x27s environment (its state at the call)
extended with exactly the one binding for the formal parameter, and the
caller\x27s resulting environment is exactly the one produced by fetching
the argument: whatever `SET`/`SETQ`/`DEF` did to the child frame during
the body (`memBody`) is discarded. -/
theorem C7_method_frame_isolation (n : ℕ) (mem : Memory) (he : Bool) (nm : String)
    (a : Value) (rest : List Value) (mNm mParams mBody : Value) (key : String)
    (hl : mget (upperStr nm) mem = some (.method mNm mParams mBody))
    (hk : methodParamKey mParams = .ok key)
    (v : Value) (mem' : Memory)
    (hrun : execute (n + 1) (.lst false (.atom he nm :: a :: rest)) mem = .ok (v, mem')) :
    ∃ argv mem1 memBody,
      fetch n a mem = .ok (argv, mem1) ∧
      execute n mBody (mset key argv mem) = .ok (v, memBody) ∧
      mem' = mem1 := by
  rw [execute_succ, mkExecute_method (evalN n) he nm a rest mem mNm mParams mBody hl, hk] at hrun
  simp only [okBind] at hrun
  cases hf : (evalN n).fetch a mem with
  | error e => rw [hf] at hrun; simp [errBind] at hrun
  | ok p =>
      obtain ⟨argv, mem1⟩ := p
      rw [hf] at hrun
      simp only [okBind] at hrun
      cases hb : (evalN n).execute mBody (mset key argv mem) with
      | error e => rw [hb] at hrun; simp [errBind] at hrun
      | ok q =>
          obtain ⟨r, memB⟩ := q
          rw [hb] at hrun
          simp only [okBind] at hrun
          obtain ⟨hv, hm⟩ : r = v ∧ mem1 = mem' := by simpa using hrun
          rw [hv] at hb
          exact ⟨argv, mem1, memB, hf, hb, hm.symm⟩

theorem C7_method_frame_isolation_witness :
    ∃ argv mem1 memBody,
      fetch 4 (.atom false "5") wMem = .ok (argv, mem1) ∧
      execute 4 (.lst false [.atom false "SETQ", .atom false "G", .atom false "N"])
        (mset "N" argv wMem) = .ok (.atom false "5", memBody) ∧
      wMem = mem1 :=
  C7_method_frame_isolation 4 wMem false "F" (.atom false "5") []
    (.atom false "F") (.lst false [.atom false "N"])
    (.lst false [.atom false "SETQ", .atom false "G", .atom false "N"]) "N"
    rfl rfl (.atom false "5") wMem rfl

/-! ### C8 -/

/-- C8: a call whose head resolves to a Method fails when it carries no
argument; otherwise the formal parameter is bound to `fetch` of the first
raw argument (evaluated exactly once, against the caller\x27s memory), the
body runs on that extended snapshot, and every argument beyond the first
is ignored (the call result is identical for any tail). -/
theorem C8_method_call_convention (n : ℕ) (mem : Memory) (he : Bool) (nm : String)
    (mNm mParams mBody : Value)
    (hl : mget (upperStr nm) mem = some (.method mNm mParams mBody)) :
    (execute (n + 1) (.lst false [.atom he nm]) mem =
      .error (.err "A non-native function call must contain an argument.")) ∧
    (∀ key, methodParamKey mParams = .ok key →
      ∀ a rest, execute (n + 1) (.lst false (.atom he nm :: a :: rest)) mem = (do
        let (argv, mem1) ← fetch n a mem
        let (r, _) ← execute n mBody (mset key argv mem)
        Except.ok (r, mem1))) ∧
    (∀ a rest rest',
      execute (n + 1) (.lst false (.atom he nm :: a :: rest)) mem =
        execute (n + 1) (.lst false (.atom he nm :: a :: rest')) mem) := by
  refine ⟨?_, ?_, ?_⟩
  · rw [execute_succ, mkExecute_method_noArg (evalN n) he nm mem mNm mParams mBody hl]
  · intro key hk a rest
    rw [execute_succ, mkExecute_method (evalN n) he nm a rest mem mNm mParams mBody hl, hk]
    rfl
  · intro a rest rest'
    rw [execute_succ, execute_succ,
      mkExecute_method (evalN n) he nm a rest mem mNm mParams mBody hl,
      mkExecute_method (evalN n) he nm a rest' mem mNm mParams mBody hl]

theorem C8_method_call_convention_witness :
    (execute 5 (.lst false [.atom false "F"]) wMem =
      .error (.err "A non-native function call must contain an argument.")) ∧
    (execute 5 (.lst false [.atom false "F", .atom false "5", .atom false "7"]) wMem =
      execute 5 (.lst false [.atom false "F", .atom false "5"]) wMem) :=
  ⟨(C8_method_call_convention 4 wMem false "F" (.atom false "F")
      (.lst false [.atom false "N"])
      (.lst false [.atom false "SETQ", .atom false "G", .atom false "N"]) rfl).1,
   (C8_method_call_convention 4 wMem false "F" (.atom false "F")
      (.lst false [.atom false "N"])
      (.lst false [.atom false "SETQ", .atom false "G", .atom false "N"]) rfl).2.2
     (.atom false "5") [.atom false "7"] []⟩

/-! ### C9 -/

/-- The `CAR` native checks its arity before anything else. -/
theorem CAR_arity (ev : Evaluator) (args : List Value) (mem : Memory)
    (hk : args.length ≠ 1) :
    CAR ev args mem =
      .error (.err s!"CAR: Expected 1 argument, got {args.length} instead.") := by
  cases args with
  | nil => rfl
  | cons a r =>
      cases r with
      | nil => exact absurd rfl hk
      | cons b r2 => rfl

/-- The `CDR` native checks its arity before anything else. -/
theorem CDR_arity (ev : Evaluator) (args : List Value) (mem : Memory)
    (hk : args.length ≠ 1) :
    CDR ev args mem =
      .error (.err s!"CDR: Expected 1 argument, got {args.length} instead.") := by
  cases args with
  | nil => rfl
  | cons a r =>
      cases r with
      | nil => exact absurd rfl hk
      | cons b r2 => rfl

/-- C9: when the cadr-family fallback fires, the whole raw argument tail
of the call is handed to the first synthesised `CAR`/`CDR` application, so
an argument count other than exactly one fails with the `CAR` or `CDR`
arity error (unlike a Method call, which ignores extra arguments). -/
theorem C9_cadr_tail_arity (n : ℕ) (mem : Memory) (he : Bool) (nm : String)
    (args : List Value)
    (hun : mget (upperStr nm) mem = none)
    (hpat : cadrPattern (upperStr nm).data = true)
    (hcar : mget "CAR" mem = some (.native .CAR))
    (hcdr : mget "CDR" mem = some (.native .CDR))
    (hk : args.length ≠ 1) :
    execute (n + 1) (.lst false (.atom he nm :: args)) mem =
        .error (.err s!"CAR: Expected 1 argument, got {args.length} instead.") ∨
    execute (n + 1) (.lst false (.atom he nm :: args)) mem =
        .error (.err s!"CDR: Expected 1 argument, got {args.length} instead.") := by
  have hlen3 : 3 ≤ nm.data.length := by
    have hp := hpat
    simp only [cadrPattern, Bool.and_eq_true, decide_eq_true_eq] at hp
    have h1 := hp.1.1.1
    simpa [upperStr] using h1
  have hmid : (midLetters nm).reverse ≠ [] := by
    have hlen : (midLetters nm).length = nm.data.length - 1 - 1 := by
      simp [midLetters]
    intro hcontra
    rw [List.reverse_eq_nil_iff] at hcontra
    have h0 := congrArg List.length hcontra
    rw [hlen] at h0
    simp only [List.length_nil] at h0
    omega
  obtain ⟨c, cs, hrev⟩ : ∃ c cs, (midLetters nm).reverse = c :: cs := by
    cases hx : (midLetters nm).reverse with
    | nil => exact absurd hx hmid
    | cons c cs => exact ⟨c, cs, rfl⟩
  rw [execute_succ]
  simp only [mkExecute, hun, hpat, hcar, hcdr, if_true, hrev, cadrSteps]
  by_cases hA : c = 'A'
  · left
    simp only [hA, if_pos, callValue, applyNative]
    rw [CAR_arity (evalN n) args mem hk]
    simp [errBind]
  · right
    simp only [if_neg hA, callValue, applyNative]
    rw [CDR_arity (evalN n) args mem hk]
    simp [errBind]

theorem C9_cadr_tail_arity_witness :
    execute 3 (.lst false [.atom false "CADR", .lst true [.atom true "1"],
        .lst true [.atom true "2"]]) initialMemory =
      .error (.err s!"CAR: Expected 1 argument, got {(2 : ℕ)} instead.") ∨
    execute 3 (.lst false [.atom false "CADR", .lst true [.atom true "1"],
        .lst true [.atom true "2"]]) initialMemory =
      .error (.err s!"CDR: Expected 1 argument, got {(2 : ℕ)} instead.") :=
  C9_cadr_tail_arity 2 initialMemory false "CADR"
    [.lst true [.atom true "1"], .lst true [.atom true "2"]]
    rfl rfl rfl rfl (by decide)

/-! ### C5 -/

/-- The shared `ADD`/`MULT` loop throws its message as soon as any fetched
argument coerces to NaN (all arguments fetch-fixed). -/
theorem numFold_nan (n : ℕ) (msg : String) (op : JSNum → JSNum → JSNum) :
    ∀ (args : List Value) (acc : JSNum) (mem : Memory),
      args.all selfF = true → (∃ a ∈ args, (coerceNum a).isNaN = true) →
      numFold (evalN (n + 1)) msg op args acc mem = .error (.err msg) := by
  intro args
  induction args with
  | nil =>
      intro acc mem _ hex
      simp at hex
  | cons a r ih =>
      intro acc mem hall hex
      simp only [List.all_cons, Bool.and_eq_true] at hall
      simp only [numFold]
      rw [show (evalN (n + 1)).fetch = mkFetch (evalN n) from rfl,
        mkFetch_selfF (evalN n) a mem hall.1]
      simp only [okBind]
      by_cases hna : (coerceNum a).isNaN = true
      · simp [hna]
      · have hna' : (coerceNum a).isNaN = false := by
          cases hx : (coerceNum a).isNaN with
          | true => exact absurd hx hna
          | false => rfl
        simp only [hna', Bool.false_eq_true, if_false]
        apply ih
        · exact hall.2
        · rcases hex with ⟨b, hb, hnb⟩
          rcases List.mem_cons.1 hb with hba | hbr
          · rw [hba] at hnb
            exact absurd hnb hna
          · exact ⟨b, hbr, hnb⟩

/-- C5 (amended): each arithmetic native fails with its own non-numeric
message as soon as a fetched argument coerces to NaN through
`Number(value)` — which is the case for atoms with non-numeric text,
non-empty lists, methods and natives, but NOT for the empty list `NIL`
(which coerces to `0`; see the counterexample).  All arguments here are
fetch-fixed, so "fetched argument" and "argument" coincide. -/
theorem C5_arith_nan_fails (n : ℕ) (mem : Memory) :
    (∀ args, args.all selfF = true → 2 ≤ args.length →
      (∃ a ∈ args, (coerceNum a).isNaN = true) →
      ADD (evalN (n + 1)) args mem =
        .error (.err "ADD: One or more parameters are not a number")) ∧
    (∀ args, args.all selfF = true → 2 ≤ args.length →
      (∃ a ∈ args, (coerceNum a).isNaN = true) →
      MULT (evalN (n + 1)) args mem =
        .error (.err "MULT: One or more parameters are not a number")) ∧
    (∀ a b, selfF a = true → selfF b = true →
      ((coerceNum a).isNaN = true →
        SUB (evalN (n + 1)) [a, b] mem = .error (.err "SUB: Minuend is not a number")) ∧
      ((coerceNum a).isNaN = false → (coerceNum b).isNaN = true →
        SUB (evalN (n + 1)) [a, b] mem = .error (.err "SUB: Subtrahend is not a number"))) ∧
    (∀ a b, selfF a = true → selfF b = true →
      ((coerceNum a).isNaN = true →
        DIV (evalN (n + 1)) [a, b] mem = .error (.err "DIV: Dividend is not a number")) ∧
      ((coerceNum a).isNaN = false → (coerceNum b).isNaN = true →
        DIV (evalN (n + 1)) [a, b] mem = .error (.err "DIV: Divisor is not a number"))) ∧
    (∀ a b, selfF a = true → selfF b = true →
      ((coerceNum a).isNaN = true →
        EXP (evalN (n + 1)) [a, b] mem = .error (.err "EXP: Base is not a number")) ∧
      ((coerceNum a).isNaN = false → (coerceNum b).isNaN = true →
        EXP (evalN (n + 1)) [a, b] mem = .error (.err "EXP: Exponent is not a number"))) ∧
    (∀ a b, selfF a = true → selfF b = true →
      ((coerceNum a).isNaN = true →
        EQ (evalN (n + 1)) [a, b] mem =
          .error (.err "EQ: Left-hand parameter is not a number")) ∧
      ((coerceNum a).isNaN = false → (coerceNum b).isNaN = true →
        EQ (evalN (n + 1)) [a, b] mem =
          .error (.err "EQ: Right-hand parameter is not a number"))) ∧
    (∀ a, selfF a = true → (coerceNum a).isNaN = true →
      SQUARE (evalN (n + 1)) [a] mem =
        .error (.err "SQUARE: Parameter is not a number")) ∧
    (∀ a, selfF a = true → (coerceNum a).isNaN = true →
      POS (evalN (n + 1)) [a] mem = .error (.err "POS: Parameter is not a number")) ∧
    (∀ a, selfF a = true → (coerceNum a).isNaN = true →
      NEG (evalN (n + 1)) [a] mem = .error (.err "NEG: Parameter is not a number")) := by
  have hfetch : ∀ (v : Value) (m : Memory), selfF v = true →
      (evalN (n + 1)).fetch v m = .ok (v, m) := fun v m hv =>
    mkFetch_selfF (evalN n) v m hv
  refine ⟨?_, ?_, ?_, ?_, ?_, ?_, ?_, ?_, ?_⟩
  · intro args hall hlen hex
    simp only [ADD, Nat.lt_iff_add_one_le]
    rw [if_neg (by omega)]
    rw [numFold_nan n _ _ args (.fin 0) mem hall hex]
    rfl
  · intro args hall hlen hex
    simp only [MULT, Nat.lt_iff_add_one_le]
    rw [if_neg (by omega)]
    rw [numFold_nan n _ _ args (.fin 1) mem hall hex]
    rfl
  · intro a b ha hb
    constructor
    · intro hna
      simp only [SUB, hfetch a mem ha, okBind, hfetch b mem hb, hna]
      rfl
    · intro hna hnb
      simp only [SUB, hfetch a mem ha, okBind, hfetch b mem hb, hna, hnb]
      rfl
  · intro a b ha hb
    constructor
    · intro hna
      simp only [DIV, hfetch a mem ha, okBind, hfetch b mem hb, hna]
      rfl
    · intro hna hnb
      simp only [DIV, hfetch a mem ha, okBind, hfetch b mem hb, hna, hnb]
      rfl
  · intro a b ha hb
    constructor
    · intro hna
      simp only [EXP, hfetch a mem ha, okBind, hfetch b mem hb, hna]
      rfl
    · intro hna hnb
      simp only [EXP, hfetch a mem ha, okBind, hfetch b mem hb, hna, hnb]
      rfl
  · intro a b ha hb
    constructor
    · intro hna
      simp only [EQ, hfetch a mem ha, okBind, hfetch b mem hb, hna]
      rfl
    · intro hna hnb
      simp only [EQ, hfetch a mem ha, okBind, hfetch b mem hb, hna, hnb]
      rfl
  · intro a ha hna
    simp only [SQUARE, hfetch a mem ha, okBind, hna]
    rfl
  · intro a ha hna
    simp only [POS, hfetch a mem ha, okBind, hna]
    rfl
  · intro a ha hna
    simp only [NEG, hfetch a mem ha, okBind, hna]
    rfl

theorem C5_arith_nan_fails_witness :
    ADD (evalN 1) [.atom false "1", .atom true "X"] initialMemory =
      .error (.err "ADD: One or more parameters are not a number") ∧
    SUB (evalN 1) [.atom true "X", .atom false "1"] initialMemory =
      .error (.err "SUB: Minuend is not a number") ∧
    POS (evalN 1) [.lst true [.atom true "1"]] initialMemory =
      .error (.err "POS: Parameter is not a number") :=
  ⟨(C5_arith_nan_fails 0 initialMemory).1 [.atom false "1", .atom true "X"]
      rfl (by decide) ⟨.atom true "X", by simp, rfl⟩,
   ((C5_arith_nan_fails 0 initialMemory).2.2.1 (.atom true "X") (.atom false "1")
      rfl rfl).1 rfl,
   (C5_arith_nan_fails 0 initialMemory).2.2.2.2.2.2.2.1 (.lst true [.atom true "1"])
      rfl rfl⟩

/-! ### C10 -/

/-- C10: the parser\x27s pending quote bit is set by an apostrophe (legal
only while no atom is in progress), survives spaces and closing
parentheses unchanged, and is cleared exactly by the next opening
parenthesis or atom start.  Concretely, in `(A \x27)(B)` the apostrophe
before `)` survives the close and quotes the NEXT top-level statement:
`(B)` parses quoted (with its atom quoted). -/
theorem C10_pending_quote_bit :
    (∀ st : PState, st.atom = none →
      parseStep st quoteChar = .ok { st with escaped := true }) ∧
    (∀ (st st' : PState), parseStep st ' ' = .ok st' → st'.escaped = st.escaped) ∧
    (∀ (st st' : PState), parseStep st ')' = .ok st' → st'.escaped = st.escaped) ∧
    (∀ (st st' : PState), parseStep st '(' = .ok st' → st'.escaped = false) ∧
    (∀ (st : PState) (c : Char) (st' : PState), c ≠ quoteChar → c ≠ '(' → c ≠ ')' →
      c ≠ ' ' → st.atom = none → parseStep st c = .ok st' → st'.escaped = false) ∧
    parse "(A \x27)(B)" = .ok [.lst false [.atom false "A"], .lst true [.atom true "B"]] := by
  refine ⟨?_, ?_, ?_, ?_, ?_, rfl⟩
  · intro st h
    simp [parseStep, h]
  · intro st st' h
    have h1 : ¬(' ' = quoteChar) := by decide
    have h2 : ¬(' ' = '(') := by decide
    have h3 : ¬(' ' = ')') := by decide
    simp only [parseStep, if_neg h1, if_neg h2, if_neg h3, eq_self_iff_true, if_true] at h
    iterate 3 (all_goals try split at h)
    all_goals first
      | (simp only [Except.ok.injEq] at h; subst h; rfl)
      | (cases h)
  · intro st st' h
    have h1 : ¬(')' = quoteChar) := by decide
    have h2 : ¬(')' = '(') := by decide
    simp only [parseStep, if_neg h1, if_neg h2, eq_self_iff_true, if_true] at h
    iterate 3 (all_goals try split at h)
    all_goals first
      | (simp only [Except.ok.injEq] at h; subst h; rfl)
      | (cases h)
  · intro st st' h
    have h1 : ¬('(' = quoteChar) := by decide
    simp only [parseStep, if_neg h1, eq_self_iff_true, if_true] at h
    iterate 3 (all_goals try split at h)
    all_goals simp only [Except.ok.injEq] at h
    all_goals subst h
    all_goals rfl
  · intro st c st' hq hp hc hs hat h
    simp only [parseStep, if_neg hq, if_neg hp, if_neg hc, if_neg hs, hat] at h
    iterate 3 (all_goals try split at h)
    all_goals first
      | (simp only [Except.ok.injEq] at h; subst h; rfl)
      | (cases h)

theorem C10_pending_quote_bit_witness :
    parseStep PState.init quoteChar = .ok { PState.init with escaped := true } ∧
    (⟨none, true, [], [.lst false [.atom false "A"]]⟩ : PState).escaped =
      (⟨none, true, [(false, [.atom false "A"])], []⟩ : PState).escaped :=
  ⟨C10_pending_quote_bit.1 PState.init rfl,
   C10_pending_quote_bit.2.2.1 ⟨none, true, [(false, [.atom false "A"])], []⟩
     ⟨none, true, [], [.lst false [.atom false "A"]]⟩ rfl⟩

/-! ### C6 (amended) -/

/-- Appending one element to a frame\x27s elements. -/
theorem escList_append (e : Bool) (xs : List Value) (v : Value) :
    escList e (xs ++ [v]) = (escList e xs && escChild e v) := by
  induction xs with
  | nil => simp [escList]
  | cons a r ih =>
      simp only [List.cons_append, escList, List.append_eq, ih, Bool.and_assoc]

/-- Flushing the pending atom into the innermost frame preserves the
frame\x27s one-level propagation (the atom was started under this frame, so
it carries the flag whenever the frame does). -/
theorem flushAtom_inv (a : Option (Bool × String)) (e : Bool) (es : List Value)
    (r : List (Bool × List Value))
    (hfr : escList e es = true)
    (ha : ∀ ae t, a = some (ae, t) → e = true → ae = true) :
    ∃ es', flushAtom a ((e, es) :: r) = (e, es') :: r ∧ escList e es' = true := by
  cases a with
  | none => exact ⟨es, rfl, hfr⟩
  | some p =>
      obtain ⟨ae, t⟩ := p
      refine ⟨es ++ [Value.atom ae t], ?_, ?_⟩
      · rfl
      · rw [escList_append, hfr]
        simp only [Bool.true_and, escChild]
        cases hf1 : e with
        | false => rfl
        | true => simp [ha ae t rfl hf1]

/-- One parser step preserves the invariant. -/
theorem parseStep_pInv (st : PState) (c : Char) (st' : PState)
    (hinv : pInv st) (h : parseStep st c = .ok st') : pInv st' := by
  obtain ⟨sat, sesc, sstk, sstm⟩ := st
  obtain ⟨hstm, hstk, hatom, hsome⟩ := hinv
  simp only at hstm hstk hatom hsome
  by_cases hq : c = quoteChar
  · rw [hq] at h
    cases sat with
    | some p =>
        simp only [parseStep, eq_self_iff_true, if_true] at h
        cases h
    | none =>
        simp only [parseStep, eq_self_iff_true, if_true, Except.ok.injEq] at h
        subst h
        refine ⟨hstm, hstk, ?_, ?_⟩
        · intro ae t fr hx
          cases hx
        · intro hx
          simp at hx
  · by_cases hp : c = '('
    · rw [hp] at h
      have h1 : ¬('(' = quoteChar) := by decide
      cases sstk with
      | nil =>
          have hat : sat = none := by
            cases hx : sat with
            | none => rfl
            | some p => exact absurd rfl (hsome (by simp [hx]))
          simp only [parseStep, if_neg h1, eq_self_iff_true, if_true, Except.ok.injEq] at h
          subst h
          refine ⟨hstm, ?_, ?_, ?_⟩
          · intro fr hfr
            simp only [List.mem_singleton] at hfr
            subst hfr
            rfl
          · intro ae t fr hx
            simp only [hat] at hx
            cases hx
          · intro _
            simp
      | cons fr r =>
          obtain ⟨e, es⟩ := fr
          obtain ⟨es', hfl, hok⟩ := flushAtom_inv sat e es r
            (hstk (e, es) (List.mem_cons_self _ _))
            (fun ae t hx he => hatom ae t (e, es) hx rfl he)
          simp only [parseStep, if_neg h1, eq_self_iff_true, if_true, hfl,
            Except.ok.injEq] at h
          subst h
          refine ⟨hstm, ?_, ?_, ?_⟩
          · intro fr2 hfr2
            simp only [List.mem_cons] at hfr2
            rcases hfr2 with h1' | h2' | h3'
            · subst h1'; rfl
            · subst h2'; exact hok
            · exact hstk fr2 (List.mem_cons_of_mem _ h3')
          · intro ae t fr2 hx
            cases hx
          · intro _
            simp
    · by_cases hc : c = ')'
      · rw [hc] at h
        have h1 : ¬(')' = quoteChar) := by decide
        have h2 : ¬(')' = '(') := by decide
        cases sstk with
        | nil =>
            simp only [parseStep, if_neg h1, if_neg h2, eq_self_iff_true, if_true] at h
            cases h
        | cons fr r =>
            obtain ⟨e, es⟩ := fr
            obtain ⟨es', hfl, hok⟩ := flushAtom_inv sat e es ([] : List (Bool × List Value))
              (hstk (e, es) (List.mem_cons_self _ _))
              (fun ae t hx he => hatom ae t (e, es) hx rfl he)
            have hclosed : escOK (.lst e es') = true := hok
            cases r with
            | nil =>
                simp only [parseStep, if_neg h1, if_neg h2, eq_self_iff_true, if_true, hfl,
                  Except.ok.injEq] at h
                subst h
                refine ⟨?_, ?_, ?_, ?_⟩
                · intro v hv
                  simp only [List.mem_append, List.mem_singleton] at hv
                  rcases hv with hv | hv
                  · exact hstm v hv
                  · subst hv; exact hclosed
                · intro fr2 hfr2
                  simp at hfr2
                · intro ae t fr2 hx
                  cases hx
                · intro hx
                  simp at hx
            | cons fr2 r2 =>
                simp only [parseStep, if_neg h1, if_neg h2, eq_self_iff_true, if_true, hfl,
                  Except.ok.injEq] at h
                subst h
                refine ⟨hstm, ?_, ?_, ?_⟩
                · intro fr3 hfr3
                  simp only [List.mem_cons] at hfr3
                  rcases hfr3 with h1' | h3'
                  · subst h1'
                    rw [escList_append,
                      hstk fr2 (List.mem_cons_of_mem _ (List.mem_cons_self _ _))]
                    simp only [Bool.true_and, escChild]
                    exact hok
                  · exact hstk fr3 (List.mem_cons_of_mem _ (List.mem_cons_of_mem _ h3'))
                · intro ae t fr3 hx
                  cases hx
                · intro _
                  simp
      · by_cases hs : c = ' '
        · rw [hs] at h
          have h1 : ¬(' ' = quoteChar) := by decide
          have h2 : ¬(' ' = '(') := by decide
          have h3 : ¬(' ' = ')') := by decide
          cases sat with
          | none =>
              simp only [parseStep, if_neg h1, if_neg h2, if_neg h3, eq_self_iff_true,
                if_true, Except.ok.injEq] at h
              subst h
              exact ⟨hstm, hstk, hatom, hsome⟩
          | some p =>
              cases sstk with
              | nil =>
                  simp only [parseStep, if_neg h1, if_neg h2, if_neg h3, eq_self_iff_true,
                    if_true] at h
                  cases h
              | cons fr r =>
                  obtain ⟨e, es⟩ := fr
                  obtain ⟨ae, t⟩ := p
                  obtain ⟨es', hfl, hok⟩ := flushAtom_inv (some (ae, t)) e es r
                    (hstk (e, es) (List.mem_cons_self _ _))
                    (fun ae2 t2 hx he => hatom ae2 t2 (e, es) hx rfl he)
                  simp only [parseStep, if_neg h1, if_neg h2, if_neg h3, eq_self_iff_true,
                    if_true, hfl, Except.ok.injEq] at h
                  subst h
                  refine ⟨hstm, ?_, ?_, ?_⟩
                  · intro fr2 hfr2
                    simp only [List.mem_cons] at hfr2
                    rcases hfr2 with h1' | h3'
                    · subst h1'; exact hok
                    · exact hstk fr2 (List.mem_cons_of_mem _ h3')
                  · intro ae2 t2 fr2 hx
                    cases hx
                  · intro hx
                    simp at hx
        · cases sat with
          | none =>
              cases sstk with
              | nil =>
                  simp only [parseStep, if_neg hq, if_neg hp, if_neg hc, if_neg hs] at h
                  cases h
              | cons fr r =>
                  obtain ⟨e, es⟩ := fr
                  simp only [parseStep, if_neg hq, if_neg hp, if_neg hc, if_neg hs,
                    Except.ok.injEq] at h
                  subst h
                  refine ⟨hstm, hstk, ?_, ?_⟩
                  · intro ae t fr2 hx hhead he
                    simp only [List.head?_cons, Option.some.injEq] at hx hhead
                    injection hx with hx1 hx2
                    rw [← hhead] at he
                    simp only at he
                    rw [← hx1, he]
                    simp
                  · intro _
                    simp
          | some p =>
              obtain ⟨ae, t⟩ := p
              simp only [parseStep, if_neg hq, if_neg hp, if_neg hc, if_neg hs,
                Except.ok.injEq] at h
              subst h
              refine ⟨hstm, hstk, ?_, ?_⟩
              · intro ae2 t2 fr2 hx hhead he
                simp only [Option.some.injEq] at hx
                injection hx with hx1 hx2
                rw [← hx1]
                exact hatom ae t fr2 rfl hhead he
              · intro _
                exact hsome (by simp)

/-- The invariant holds along any successful parser run. -/
theorem parseChars_pInv : ∀ (cs : List Char) (st st' : PState),
    pInv st → parseChars st cs = .ok st' → pInv st' := by
  intro cs
  induction cs with
  | nil =>
      intro st st' h hp
      simp only [parseChars, Except.ok.injEq] at hp
      subst hp
      exact h
  | cons c r ih =>
      intro st st' h hp
      simp only [parseChars] at hp
      cases hs : parseStep st c with
      | error e => rw [hs] at hp; cases hp
      | ok st1 =>
          rw [hs] at hp
          simp only [okBind] at hp
          exact ih st1 st' (parseStep_pInv st c st1 h hs) hp

/-- C6 (amended): after parsing, the quote flag propagates exactly one
level: inside every list that carries the flag, every DIRECT atom child
carries it too — but an atom inside an unquoted nested list of a quoted
list does not inherit it, and a nested list carries its own flag only
when it was explicitly quoted (see the counterexample for the negative
side). -/
theorem C6_quote_propagation_is_one_level (src : String) (stmts : List Value)
    (hp : parse src = .ok stmts) : ∀ v ∈ stmts, escOK v = true := by
  simp only [parse] at hp
  cases hps : parseChars PState.init src.data with
  | error e => rw [hps] at hp; cases hp
  | ok st =>
      rw [hps] at hp
      simp only [okBind] at hp
      have hinv := parseChars_pInv src.data PState.init st
        (by
          unfold pInv PState.init
          refine ⟨?_, ?_, ?_, ?_⟩ <;> simp) hps
      split at hp
      · simp only [Except.ok.injEq] at hp
        subst hp
        intro v hv
        exact hinv.1 v hv
      · cases hp

theorem C6_quote_propagation_is_one_level_witness :
    escOK (.lst true [.atom true "A", .atom true "B"]) = true :=
  C6_quote_propagation_is_one_level "\x27(A B)"
    [.lst true [.atom true "A", .atom true "B"]] rfl
    (.lst true [.atom true "A", .atom true "B"]) (by simp)

/-! ### C4 (amended): preservation of the Method shape invariant -/

theorem resOK_error (e : Err) : resOK (.error e) := by
  intro v m hvm
  cases hvm

theorem resOK_ok {v : Value} {m : Memory} (hv : valOK v = true) (hm : memOK m = true) :
    resOK (.ok (v, m)) := by
  intro v' m' hvm
  cases hvm
  exact ⟨hv, hm⟩

theorem valOKList_mem : ∀ {es : List Value}, valOKList es = true →
    ∀ {v : Value}, v ∈ es → valOK v = true := by
  intro es
  induction es with
  | nil => intro _ v hv; cases hv
  | cons a r ih =>
      intro h v hv
      simp only [valOKList, Bool.and_eq_true] at h
      rcases List.mem_cons.1 hv with h1 | h2
      · subst h1; exact h.1
      · exact ih h.2 h2

theorem valOK_lst {e : Bool} {es : List Value} : valOK (.lst e es) = valOKList es := rfl

theorem valOKList_cons {a : Value} {r : List Value} :
    valOKList (a :: r) = (valOK a && valOKList r) := rfl

theorem mget_valOK : ∀ (m : Memory), memOK m = true →
    ∀ k v, mget k m = some v → valOK v = true := by
  intro m
  induction m with
  | nil => intro _ k v hv; cases hv
  | cons p r ih =>
      intro hm k v hv
      obtain ⟨k', v'⟩ := p
      simp only [memOK, List.all_cons, Bool.and_eq_true] at hm
      simp only [mget] at hv
      by_cases hk : k' = k
      · rw [if_pos hk] at hv
        cases hv
        exact hm.1
      · rw [if_neg hk] at hv
        exact ih hm.2 k v hv

theorem mset_memOK {m : Memory} (hm : memOK m = true) {v : Value}
    (hv : valOK v = true) (k : String) : memOK (mset k v m) = true := by
  simp only [memOK, mset, List.all_cons, Bool.and_eq_true]
  exact ⟨hv, hm⟩

theorem evOK_zero : evOK (evalN 0) := by
  refine ⟨?_, ?_, ?_⟩
  · intro v mem _ _
    exact resOK_error _
  · intro v mem _ _
    exact resOK_error _
  · intro v mem b sOut m _ _ h
    cases h

theorem numFold_OK (ev : Evaluator) (hev : evOK ev) (msg : String)
    (op : JSNum → JSNum → JSNum) :
    ∀ (args : List Value) (acc : JSNum) (mem : Memory),
      valOKList args = true → memOK mem = true →
      ∀ x m', numFold ev msg op args acc mem = .ok (x, m') → memOK m' = true := by
  intro args
  induction args with
  | nil =>
      intro acc mem _ hm x m' h
      simp only [numFold] at h
      cases h
      exact hm
  | cons a r ih =>
      intro acc mem hlist hm x m' h
      simp only [valOKList_cons, Bool.and_eq_true] at hlist
      simp only [numFold] at h
      cases hf : ev.fetch a mem with
      | error e =>
          rw [hf] at h
          simp only [errBind] at h
          cases h
      | ok p =>
          obtain ⟨fv, fm⟩ := p
          rw [hf] at h
          simp only [okBind] at h
          have hfm := (hev.1 a mem hlist.1 hm fv fm hf).2
          cases hnan : (coerceNum fv).isNaN with
          | true =>
              rw [hnan] at h
              simp only [if_true] at h
              cases h
          | false =>
              rw [hnan] at h
              simp only [Bool.false_eq_true, if_false] at h
              exact ih (op acc (coerceNum fv)) fm hlist.2 hfm x m' h

theorem printAll_OK (ev : Evaluator) (hev : evOK ev) :
    ∀ (args : List Value) (mem : Memory), valOKList args = true → memOK mem = true →
      ∀ m', printAll ev args mem = .ok m' → memOK m' = true := by
  intro args
  induction args with
  | nil =>
      intro mem _ hm m' h
      simp only [printAll] at h
      cases h
      exact hm
  | cons a r ih =>
      intro mem hlist hm m' h
      simp only [valOKList_cons, Bool.and_eq_true] at hlist
      simp only [printAll] at h
      cases hf : ev.toStr a mem false with
      | error e =>
          rw [hf] at h
          simp only [errBind] at h
          cases h
      | ok p =>
          obtain ⟨sOut, fm⟩ := p
          rw [hf] at h
          simp only [okBind] at h
          exact ih fm hlist.2 (hev.2.2 a mem false sOut fm hlist.1 hm hf) m' h

theorem strAll_OK (ev : Evaluator) (hev : evOK ev) :
    ∀ (args : List Value) (mem : Memory) (b : Bool),
      valOKList args = true → memOK mem = true →
      ∀ ss m', strAll ev args mem b = .ok (ss, m') → memOK m' = true := by
  intro args
  induction args with
  | nil =>
      intro mem b _ hm ss m' h
      simp only [strAll] at h
      cases h
      exact hm
  | cons a r ih =>
      intro mem b hlist hm ss m' h
      simp only [valOKList_cons, Bool.and_eq_true] at hlist
      simp only [strAll] at h
      cases hf : ev.toStr a mem b with
      | error e =>
          rw [hf] at h
          simp only [errBind] at h
          cases h
      | ok p =>
          obtain ⟨sOut, fm⟩ := p
          rw [hf] at h
          simp only [okBind] at h
          cases hr : strAll ev r fm b with
          | error e =>
              rw [hr] at h
              simp only [errBind] at h
              cases h
          | ok q =>
              obtain ⟨ss2, fm2⟩ := q
              rw [hr] at h
              simp only [okBind] at h
              cases h
              exact ih fm b hlist.2 (hev.2.2 a mem b sOut fm hlist.1 hm hf) ss2 _ hr

theorem valOKList_eq_all : ∀ (es : List Value), valOKList es = es.all valOK := by
  intro es
  induction es with
  | nil => rfl
  | cons a r ih => simp [valOKList_cons, List.all_cons, ih]

theorem applyNative_OK (ev : Evaluator) (hev : evOK ev) (tag : NTag) :
    ∀ (args : List Value) (mem : Memory), valOKList args = true → memOK mem = true →
      resOK (applyNative ev tag args mem) := by
  have hF := hev.1
  have hE := hev.2.1
  cases tag with
  | ADD =>
      intro args mem ha hm v m hvm
      simp only [applyNative, ADD] at hvm
      by_cases hl : args.length < 2
      · rw [if_pos hl] at hvm; cases hvm
      · rw [if_neg hl] at hvm
        cases hnf : numFold ev "ADD: One or more parameters are not a number" JSNum.add args (.fin 0) mem with
        | error e => rw [hnf] at hvm; simp only [errBind] at hvm; cases hvm
        | ok p =>
            obtain ⟨x, m2⟩ := p
            rw [hnf] at hvm
            simp only [okBind] at hvm
            cases hvm
            exact ⟨rfl, numFold_OK ev hev _ _ args (.fin 0) mem ha hm x _ hnf⟩
  | MULT =>
      intro args mem ha hm v m hvm
      simp only [applyNative, MULT] at hvm
      by_cases hl : args.length < 2
      · rw [if_pos hl] at hvm; cases hvm
      · rw [if_neg hl] at hvm
        cases hnf : numFold ev "MULT: One or more parameters are not a number" JSNum.mul args (.fin 1) mem with
        | error e => rw [hnf] at hvm; simp only [errBind] at hvm; cases hvm
        | ok p =>
            obtain ⟨x, m2⟩ := p
            rw [hnf] at hvm
            simp only [okBind] at hvm
            cases hvm
            exact ⟨rfl, numFold_OK ev hev _ _ args (.fin 1) mem ha hm x _ hnf⟩
  | ATOM =>
      intro args mem ha hm v m hvm
      cases args with
      | nil => simp only [applyNative, ATOM] at hvm; cases hvm
      | cons p0 r =>
          cases r with
          | cons p1 r2 => simp only [applyNative, ATOM] at hvm; cases hvm
          | nil =>
              simp only [applyNative, ATOM] at hvm
              simp only [valOKList_cons, valOKList, Bool.and_true] at ha
              cases hf : ev.fetch p0 mem with
              | error e => rw [hf] at hvm; simp only [errBind] at hvm; cases hvm
              | ok p =>
                  obtain ⟨fv, fm⟩ := p
                  rw [hf] at hvm
                  simp only [okBind] at hvm
                  have hfok := hF p0 mem ha hm fv fm hf
                  split at hvm
                  · cases hvm; exact ⟨rfl, hfok.2⟩
                  · split at hvm
                    · cases hvm; exact ⟨rfl, hfok.2⟩
                    · cases hvm; exact ⟨rfl, hfok.2⟩
  | CAR =>
      intro args mem ha hm v m hvm
      cases args with
      | nil => simp only [applyNative, CAR] at hvm; cases hvm
      | cons p0 r =>
          cases r with
          | cons p1 r2 => simp only [applyNative, CAR] at hvm; cases hvm
          | nil =>
              simp only [applyNative, CAR] at hvm
              simp only [valOKList_cons, valOKList, Bool.and_true] at ha
              cases hf : ev.fetch p0 mem with
              | error e => rw [hf] at hvm; simp only [errBind] at hvm; cases hvm
              | ok p =>
                  obtain ⟨fv, fm⟩ := p
                  rw [hf] at hvm
                  simp only [okBind] at hvm
                  have hfok := hF p0 mem ha hm fv fm hf
                  split at hvm
                  · cases hvm
                    refine ⟨?_, hfok.2⟩
                    have h2 := hfok.1
                    rw [valOK_lst] at h2
                    simp only [valOKList_cons, Bool.and_eq_true] at h2
                    exact h2.1
                  · cases hvm
  | CDR =>
      intro args mem ha hm v m hvm
      cases args with
      | nil => simp only [applyNative, CDR] at hvm; cases hvm
      | cons p0 r =>
          cases r with
          | cons p1 r2 => simp only [applyNative, CDR] at hvm; cases hvm
          | nil =>
              simp only [applyNative, CDR] at hvm
              simp only [valOKList_cons, valOKList, Bool.and_true] at ha
              cases hf : ev.fetch p0 mem with
              | error e => rw [hf] at hvm; simp only [errBind] at hvm; cases hvm
              | ok p =>
                  obtain ⟨fv, fm⟩ := p
                  rw [hf] at hvm
                  simp only [okBind] at hvm
                  have hfok := hF p0 mem ha hm fv fm hf
                  split at hvm
                  · cases hvm
                    refine ⟨?_, hfok.2⟩
                    have h2 := hfok.1
                    rw [valOK_lst] at h2
                    simp only [valOKList_cons, Bool.and_eq_true] at h2
                    rw [valOK_lst]
                    exact h2.2
                  · cases hvm
  | CONS =>
      intro args mem ha hm v m hvm
      cases args with
      | nil => simp only [applyNative, CONS] at hvm; cases hvm
      | cons p0 r =>
          cases r with
          | nil => simp only [applyNative, CONS] at hvm; cases hvm
          | cons p1 r2 =>
              cases r2 with
              | cons p2 r3 => simp only [applyNative, CONS] at hvm; cases hvm
              | nil =>
                  simp only [applyNative, CONS] at hvm
                  simp only [valOKList_cons, valOKList, Bool.and_true, Bool.and_eq_true] at ha
                  cases hf : ev.fetch p0 mem with
                  | error e => rw [hf] at hvm; simp only [errBind] at hvm; cases hvm
                  | ok p =>
                      obtain ⟨fv, fm⟩ := p
                      rw [hf] at hvm
                      simp only [okBind] at hvm
                      have hfok := hF p0 mem ha.1 hm fv fm hf
                      cases hg : ev.fetch p1 fm with
                      | error e => rw [hg] at hvm; simp only [errBind] at hvm; cases hvm
                      | ok q =>
                          obtain ⟨gv, gm⟩ := q
                          rw [hg] at hvm
                          simp only [okBind] at hvm
                          have hgok := hF p1 fm ha.2 hfok.2 gv gm hg
                          split at hvm
                          · cases hvm
                            refine ⟨?_, hgok.2⟩
                            rw [valOK_lst, valOKList_cons]
                            have h2 := hgok.1
                            rw [valOK_lst] at h2
                            simp [hfok.1, h2]
                          · cases hvm
  | DEF =>
      intro args mem ha hm v m hvm
      cases args with
      | nil => simp only [applyNative, DEF] at hvm; cases hvm
      | cons p0 r =>
          cases r with
          | nil => simp only [applyNative, DEF] at hvm; cases hvm
          | cons p1 r2 =>
              cases r2 with
              | nil => simp only [applyNative, DEF] at hvm; cases hvm
              | cons p2 r3 =>
                  cases r3 with
                  | cons p3 r4 => simp only [applyNative, DEF] at hvm; cases hvm
                  | nil =>
                      simp only [applyNative, DEF] at hvm
                      simp only [valOKList_cons, valOKList, Bool.and_true, Bool.and_eq_true] at ha
                      iterate 3 (all_goals try split at hvm)
                      all_goals try (cases hvm)
                      all_goals
                        refine ⟨?_, mset_memOK hm ?_ _⟩ <;>
                          simp_all [valOK, valOKList, defParamsShape]
  | DIV =>
      intro args mem ha hm v m hvm
      cases args with
      | nil => simp only [applyNative, DIV] at hvm; cases hvm
      | cons p0 r =>
          cases r with
          | nil => simp only [applyNative, DIV] at hvm; cases hvm
          | cons p1 r2 =>
              cases r2 with
              | cons p2 r3 => simp only [applyNative, DIV] at hvm; cases hvm
              | nil =>
                  simp only [applyNative, DIV] at hvm
                  simp only [valOKList_cons, valOKList, Bool.and_true, Bool.and_eq_true] at ha
                  cases hf : ev.fetch p0 mem with
                  | error e => rw [hf] at hvm; simp only [errBind] at hvm; cases hvm
                  | ok p =>
                      obtain ⟨fv, fm⟩ := p
                      rw [hf] at hvm
                      simp only [okBind] at hvm
                      have hfok := hF p0 mem ha.1 hm fv fm hf
                      cases hg : ev.fetch p1 fm with
                      | error e => rw [hg] at hvm; simp only [errBind] at hvm; cases hvm
                      | ok q =>
                          obtain ⟨gv, gm⟩ := q
                          rw [hg] at hvm
                          simp only [okBind] at hvm
                          have hgok := hF p1 fm ha.2 hfok.2 gv gm hg
                          split at hvm
                          · cases hvm
                          · split at hvm
                            · cases hvm
                            · cases hvm; exact ⟨rfl, hgok.2⟩
  | EQ =>
      intro args mem ha hm v m hvm
      cases args with
      | nil => simp only [applyNative, EQ] at hvm; cases hvm
      | cons p0 r =>
          cases r with
          | nil => simp only [applyNative, EQ] at hvm; cases hvm
          | cons p1 r2 =>
              cases r2 with
              | cons p2 r3 => simp only [applyNative, EQ] at hvm; cases hvm
              | nil =>
                  simp only [applyNative, EQ] at hvm
                  simp only [valOKList_cons, valOKList, Bool.and_true, Bool.and_eq_true] at ha
                  cases hf : ev.fetch p0 mem with
                  | error e => rw [hf] at hvm; simp only [errBind] at hvm; cases hvm
                  | ok p =>
                      obtain ⟨fv, fm⟩ := p
                      rw [hf] at hvm
                      simp only [okBind] at hvm
                      have hfok := hF p0 mem ha.1 hm fv fm hf
                      cases hg : ev.fetch p1 fm with
                      | error e => rw [hg] at hvm; simp only [errBind] at hvm; cases hvm
                      | ok q =>
                          obtain ⟨gv, gm⟩ := q
                          rw [hg] at hvm
                          simp only [okBind] at hvm
                          have hgok := hF p1 fm ha.2 hfok.2 gv gm hg
                          split at hvm
                          · cases hvm
                          · split at hvm
                            · cases hvm
                            · split at hvm
                              · cases hvm; exact ⟨rfl, hgok.2⟩
                              · cases hvm; exact ⟨rfl, hgok.2⟩
  | EVAL =>
      intro args mem ha hm v m hvm
      cases args with
      | nil => simp only [applyNative, EVAL] at hvm; cases hvm
      | cons p0 r =>
          cases r with
          | cons p1 r2 => simp only [applyNative, EVAL] at hvm; cases hvm
          | nil =>
              simp only [applyNative, EVAL] at hvm
              simp only [valOKList_cons, valOKList, Bool.and_true] at ha
              cases hf : ev.fetch p0 mem with
              | error e => rw [hf] at hvm; simp only [errBind] at hvm; cases hvm
              | ok p =>
                  obtain ⟨fv, fm⟩ := p
                  rw [hf] at hvm
                  simp only [okBind] at hvm
                  have hfok := hF p0 mem ha hm fv fm hf
                  split at hvm
                  · refine hE _ fm ?_ hfok.2 v m hvm
                    have h2 := hfok.1
                    rw [valOK_lst] at h2 ⊢
                    exact h2
                  · cases hvm; exact ⟨hfok.1, hfok.2⟩
  | EXP =>
      intro args mem ha hm v m hvm
      cases args with
      | nil => simp only [applyNative, EXP] at hvm; cases hvm
      | cons p0 r =>
          cases r with
          | nil => simp only [applyNative, EXP] at hvm; cases hvm
          | cons p1 r2 =>
              cases r2 with
              | cons p2 r3 => simp only [applyNative, EXP] at hvm; cases hvm
              | nil =>
                  simp only [applyNative, EXP] at hvm
                  simp only [valOKList_cons, valOKList, Bool.and_true, Bool.and_eq_true] at ha
                  cases hf : ev.fetch p0 mem with
                  | error e => rw [hf] at hvm; simp only [errBind] at hvm; cases hvm
                  | ok p =>
                      obtain ⟨fv, fm⟩ := p
                      rw [hf] at hvm
                      simp only [okBind] at hvm
                      have hfok := hF p0 mem ha.1 hm fv fm hf
                      cases hg : ev.fetch p1 fm with
                      | error e => rw [hg] at hvm; simp only [errBind] at hvm; cases hvm
                      | ok q =>
                          obtain ⟨gv, gm⟩ := q
                          rw [hg] at hvm
                          simp only [okBind] at hvm
                          have hgok := hF p1 fm ha.2 hfok.2 gv gm hg
                          split at hvm
                          · cases hvm
                          · split at hvm
                            · cases hvm
                            · cases hvm; exact ⟨rfl, hgok.2⟩
  | NEG =>
      intro args mem ha hm v m hvm
      cases args with
      | nil => simp only [applyNative, NEG] at hvm; cases hvm
      | cons p0 r =>
          cases r with
          | cons p1 r2 => simp only [applyNative, NEG] at hvm; cases hvm
          | nil =>
              simp only [applyNative, NEG] at hvm
              simp only [valOKList_cons, valOKList, Bool.and_true] at ha
              cases hf : ev.fetch p0 mem with
              | error e => rw [hf] at hvm; simp only [errBind] at hvm; cases hvm
              | ok p =>
                  obtain ⟨fv, fm⟩ := p
                  rw [hf] at hvm
                  simp only [okBind] at hvm
                  have hfok := hF p0 mem ha hm fv fm hf
                  split at hvm
                  · cases hvm
                  · split at hvm
                    · cases hvm; exact ⟨rfl, hfok.2⟩
                    · cases hvm; exact ⟨rfl, hfok.2⟩
  | POS =>
      intro args mem ha hm v m hvm
      cases args with
      | nil => simp only [applyNative, POS] at hvm; cases hvm
      | cons p0 r =>
          cases r with
          | cons p1 r2 => simp only [applyNative, POS] at hvm; cases hvm
          | nil =>
              simp only [applyNative, POS] at hvm
              simp only [valOKList_cons, valOKList, Bool.and_true] at ha
              cases hf : ev.fetch p0 mem with
              | error e => rw [hf] at hvm; simp only [errBind] at hvm; cases hvm
              | ok p =>
                  obtain ⟨fv, fm⟩ := p
                  rw [hf] at hvm
                  simp only [okBind] at hvm
                  have hfok := hF p0 mem ha hm fv fm hf
                  split at hvm
                  · cases hvm
                  · split at hvm
                    · cases hvm; exact ⟨rfl, hfok.2⟩
                    · cases hvm; exact ⟨rfl, hfok.2⟩
  | PRINT =>
      intro args mem ha hm v m hvm
      simp only [applyNative, PRINT] at hvm
      cases hp : printAll ev args mem with
      | error e => rw [hp] at hvm; simp only [errBind] at hvm; cases hvm
      | ok m2 =>
          rw [hp] at hvm
          simp only [okBind] at hvm
          cases hvm
          exact ⟨rfl, printAll_OK ev hev args mem ha hm _ hp⟩
  | REVERSE =>
      intro args mem ha hm v m hvm
      cases args with
      | nil => simp only [applyNative, REVERSE] at hvm; cases hvm
      | cons p0 r =>
          cases r with
          | cons p1 r2 => simp only [applyNative, REVERSE] at hvm; cases hvm
          | nil =>
              simp only [applyNative, REVERSE] at hvm
              simp only [valOKList_cons, valOKList, Bool.and_true] at ha
              cases hf : ev.fetch p0 mem with
              | error e => rw [hf] at hvm; simp only [errBind] at hvm; cases hvm
              | ok p =>
                  obtain ⟨fv, fm⟩ := p
                  rw [hf] at hvm
                  simp only [okBind] at hvm
                  have hfok := hF p0 mem ha hm fv fm hf
                  split at hvm
                  · cases hvm
                    refine ⟨?_, hfok.2⟩
                    have h2 := hfok.1
                    rw [valOK_lst] at h2 ⊢
                    rw [valOKList_eq_all] at h2 ⊢
                    simpa using h2
                  · cases hvm
  | SET =>
      intro args mem ha hm v m hvm
      cases args with
      | nil => simp only [applyNative, SET] at hvm; cases hvm
      | cons p0 r =>
          cases r with
          | nil => simp only [applyNative, SET] at hvm; cases hvm
          | cons p1 r2 =>
              cases r2 with
              | cons p2 r3 => simp only [applyNative, SET] at hvm; cases hvm
              | nil =>
                  simp only [applyNative, SET] at hvm
                  simp only [valOKList_cons, valOKList, Bool.and_true, Bool.and_eq_true] at ha
                  cases hf : ev.fetch p0 mem with
                  | error e => rw [hf] at hvm; simp only [errBind] at hvm; cases hvm
                  | ok p =>
                      obtain ⟨fv, fm⟩ := p
                      rw [hf] at hvm
                      simp only [okBind] at hvm
                      have hfok := hF p0 mem ha.1 hm fv fm hf
                      cases hg : ev.fetch p1 fm with
                      | error e => rw [hg] at hvm; simp only [errBind] at hvm; cases hvm
                      | ok q =>
                          obtain ⟨gv, gm⟩ := q
                          rw [hg] at hvm
                          simp only [okBind] at hvm
                          have hgok := hF p1 fm ha.2 hfok.2 gv gm hg
                          split at hvm
                          · split at hvm
                            · cases hvm
                            · cases hvm; exact ⟨hgok.1, mset_memOK hgok.2 hgok.1 _⟩
                          · cases hvm
  | SETQ =>
      intro args mem ha hm v m hvm
      cases args with
      | nil => simp only [applyNative, SETQ] at hvm; cases hvm
      | cons p0 r =>
          cases r with
          | nil => simp only [applyNative, SETQ] at hvm; cases hvm
          | cons p1 r2 =>
              cases r2 with
              | cons p2 r3 => simp only [applyNative, SETQ] at hvm; cases hvm
              | nil =>
                  simp only [applyNative, SETQ] at hvm
                  simp only [valOKList_cons, valOKList, Bool.and_true, Bool.and_eq_true] at ha
                  cases hf : ev.fetch p1 mem with
                  | error e => rw [hf] at hvm; simp only [errBind] at hvm; cases hvm
                  | ok p =>
                      obtain ⟨fv, fm⟩ := p
                      rw [hf] at hvm
                      simp only [okBind] at hvm
                      have hfok := hF p1 mem ha.2 hm fv fm hf
                      split at hvm
                      · split at hvm
                        · cases hvm
                        · cases hvm; exact ⟨hfok.1, mset_memOK hfok.2 hfok.1 _⟩
                      · cases hvm
  | SQUARE =>
      intro args mem ha hm v m hvm
      cases args with
      | nil => simp only [applyNative, SQUARE] at hvm; cases hvm
      | cons p0 r =>
          cases r with
          | cons p1 r2 => simp only [applyNative, SQUARE] at hvm; cases hvm
          | nil =>
              simp only [applyNative, SQUARE] at hvm
              simp only [valOKList_cons, valOKList, Bool.and_true] at ha
              cases hf : ev.fetch p0 mem with
              | error e => rw [hf] at hvm; simp only [errBind] at hvm; cases hvm
              | ok p =>
                  obtain ⟨fv, fm⟩ := p
                  rw [hf] at hvm
                  simp only [okBind] at hvm
                  have hfok := hF p0 mem ha hm fv fm hf
                  split at hvm
                  · cases hvm
                  · cases hvm; exact ⟨rfl, hfok.2⟩
  | SUB =>
      intro args mem ha hm v m hvm
      cases args with
      | nil => simp only [applyNative, SUB] at hvm; cases hvm
      | cons p0 r =>
          cases r with
          | nil => simp only [applyNative, SUB] at hvm; cases hvm
          | cons p1 r2 =>
              cases r2 with
              | cons p2 r3 => simp only [applyNative, SUB] at hvm; cases hvm
              | nil =>
                  simp only [applyNative, SUB] at hvm
                  simp only [valOKList_cons, valOKList, Bool.and_true, Bool.and_eq_true] at ha
                  cases hf : ev.fetch p0 mem with
                  | error e => rw [hf] at hvm; simp only [errBind] at hvm; cases hvm
                  | ok p =>
                      obtain ⟨fv, fm⟩ := p
                      rw [hf] at hvm
                      simp only [okBind] at hvm
                      have hfok := hF p0 mem ha.1 hm fv fm hf
                      cases hg : ev.fetch p1 fm with
                      | error e => rw [hg] at hvm; simp only [errBind] at hvm; cases hvm
                      | ok q =>
                          obtain ⟨gv, gm⟩ := q
                          rw [hg] at hvm
                          simp only [okBind] at hvm
                          have hgok := hF p1 fm ha.2 hfok.2 gv gm hg
                          split at hvm
                          · cases hvm
                          · split at hvm
                            · cases hvm
                            · cases hvm; exact ⟨rfl, hgok.2⟩

theorem cadrSteps_OK (ev : Evaluator) (hev : evOK ev) (carV cdrV : Value) :
    ∀ (cs : List Char) (res : List Value) (mem : Memory),
      valOKList res = true → memOK mem = true →
      ∀ out m', cadrSteps ev carV cdrV cs res mem = .ok (out, m') →
        valOKList out = true ∧ memOK m' = true := by
  intro cs
  induction cs with
  | nil =>
      intro res mem hres hm out m' h
      simp only [cadrSteps] at h
      cases h
      exact ⟨hres, hm⟩
  | cons c r ih =>
      intro res mem hres hm out m' h
      simp only [cadrSteps] at h
      cases hc : callValue ev (if c = 'A' then carV else cdrV) res mem with
      | error e =>
          rw [hc] at h
          simp only [errBind] at h
          cases h
      | ok p =>
          obtain ⟨cv, cm⟩ := p
          rw [hc] at h
          simp only [okBind] at h
          have hcv : valOK cv = true ∧ memOK cm = true := by
            revert hc
            simp only [callValue]
            split
            · intro hc
              exact applyNative_OK ev hev _ res mem hres hm cv cm hc
            · intro hc
              cases hc
          exact ih [cv] cm (by simp [valOKList_cons, valOKList, hcv.1]) hcv.2 out m' h

theorem mkFetch_OK (ev : Evaluator) (hev : evOK ev) (v : Value) (mem : Memory)
    (hv : valOK v = true) (hm : memOK mem = true) : resOK (mkFetch ev v mem) := by
  intro rv rm hvm
  cases v with
  | atom esc t =>
      simp only [mkFetch] at hvm
      split at hvm
      · cases hg : mget (upperStr t) mem with
        | none => simp only [hg] at hvm; cases hvm
        | some v' =>
            simp only [hg] at hvm
            cases hvm
            exact ⟨mget_valOK mem hm _ _ hg, hm⟩
      · split at hvm
        · cases hvm; exact ⟨rfl, hm⟩
        · cases hvm; exact ⟨hv, hm⟩
  | lst esc es =>
      cases esc with
      | true => simp only [mkFetch] at hvm; cases hvm; exact ⟨hv, hm⟩
      | false =>
          cases es with
          | nil => simp only [mkFetch] at hvm; cases hvm; exact ⟨hv, hm⟩
          | cons e2 es2 =>
              simp only [mkFetch] at hvm
              cases hx : ev.execute (.lst false (e2 :: es2)) mem with
              | error er => rw [hx] at hvm; simp only [errBind] at hvm; cases hvm
              | ok p =>
                  obtain ⟨xv, xm⟩ := p
                  rw [hx] at hvm
                  simp only [okBind] at hvm
                  have hxok := hev.2.1 _ mem hv hm xv xm hx
                  exact hev.1 xv xm hxok.1 hxok.2 rv rm hvm
  | method a b c => simp only [mkFetch] at hvm; cases hvm; exact ⟨hv, hm⟩
  | native t => simp only [mkFetch] at hvm; cases hvm; exact ⟨hv, hm⟩

theorem mkExecute_OK (ev : Evaluator) (hev : evOK ev) (v : Value) (mem : Memory)
    (hv : valOK v = true) (hm : memOK mem = true) : resOK (mkExecute ev v mem) := by
  intro rv rm hvm
  cases v with
  | atom e t => simp only [mkExecute] at hvm; cases hvm
  | method a b c => simp only [mkExecute] at hvm; cases hvm
  | native t => simp only [mkExecute] at hvm; cases hvm
  | lst esc es =>
      cases esc with
      | true => simp only [mkExecute] at hvm; cases hvm; exact ⟨hv, hm⟩
      | false =>
          cases es with
          | nil => simp only [mkExecute] at hvm; cases hvm; exact ⟨hv, hm⟩
          | cons h args =>
              rw [valOK_lst, valOKList_cons, Bool.and_eq_true] at hv
              cases h with
              | lst e2 es2 => simp only [mkExecute] at hvm; cases hvm
              | method a b c => simp only [mkExecute] at hvm; cases hvm
              | native t2 => simp only [mkExecute] at hvm; cases hvm
              | atom he nm =>
                  cases hg : mget (upperStr nm) mem with
                  | none =>
                      simp only [mkExecute, hg] at hvm
                      split at hvm
                      · cases hcar : mget "CAR" mem with
                        | none => simp only [hcar] at hvm; cases hvm
                        | some carV =>
                            cases hcdr : mget "CDR" mem with
                            | none => simp only [hcar, hcdr] at hvm; cases hvm
                            | some cdrV =>
                                simp only [hcar, hcdr] at hvm
                                cases hcs : cadrSteps ev carV cdrV (midLetters nm).reverse args mem with
                                | error er => rw [hcs] at hvm; simp only [errBind] at hvm; cases hvm
                                | ok p =>
                                    obtain ⟨res, m2⟩ := p
                                    rw [hcs] at hvm
                                    simp only [okBind] at hvm
                                    have hcsOK := cadrSteps_OK ev hev carV cdrV _ args mem hv.2 hm res m2 hcs
                                    split at hvm
                                    · cases hvm
                                      refine ⟨?_, hcsOK.2⟩
                                      have h2 := hcsOK.1
                                      simp only [valOKList_cons, Bool.and_eq_true] at h2
                                      exact h2.1
                                    · cases hvm
                      · cases hvm
                  | some bv =>
                      have hbv := mget_valOK mem hm _ _ hg
                      cases bv with
                      | native t2 =>
                          simp only [mkExecute, hg] at hvm
                          exact applyNative_OK ev hev t2 args mem hv.2 hm rv rm hvm
                      | atom e2 t2 => simp only [mkExecute, hg] at hvm; cases hvm
                      | lst e2 es2 => simp only [mkExecute, hg] at hvm; cases hvm
                      | method mNm mParams mBody =>
                          simp only [mkExecute, hg] at hvm
                          cases args with
                          | nil =>
                              simp only [List.isEmpty_nil, if_true] at hvm
                              cases hvm
                          | cons a rest =>
                              simp only [List.isEmpty_cons, Bool.false_eq_true, if_false] at hvm
                              cases hk : methodParamKey mParams with
                              | error er => rw [hk] at hvm; simp only [errBind] at hvm; cases hvm
                              | ok key =>
                                  rw [hk] at hvm
                                  simp only [okBind] at hvm
                                  cases hf : ev.fetch a mem with
                                  | error er => rw [hf] at hvm; simp only [errBind] at hvm; cases hvm
                                  | ok p =>
                                      obtain ⟨argv, mem1⟩ := p
                                      rw [hf] at hvm
                                      simp only [okBind] at hvm
                                      have haOK : valOK a = true := by
                                        have h2 := hv.2
                                        simp only [valOKList_cons, Bool.and_eq_true] at h2
                                        exact h2.1
                                      have hfok := hev.1 a mem haOK hm argv mem1 hf
                                      cases hb : ev.execute mBody (mset key argv mem) with
                                      | error er => rw [hb] at hvm; simp only [errBind] at hvm; cases hvm
                                      | ok q =>
                                          obtain ⟨r, memB⟩ := q
                                          rw [hb] at hvm
                                          simp only [okBind] at hvm
                                          cases hvm
                                          have hbOK : valOK mBody = true := by
                                            simp only [valOK, Bool.and_eq_true] at hbv
                                            exact hbv.2
                                          have hbodyOK := hev.2.1 mBody (mset key argv mem) hbOK
                                            (mset_memOK hm hfok.1 _) _ _ hb
                                          exact ⟨hbodyOK.1, hfok.2⟩

theorem mkToStr_OK (ev : Evaluator) (hev : evOK ev) (v : Value) (mem : Memory) (b : Bool)
    (hv : valOK v = true) (hm : memOK mem = true) :
    ∀ sOut m', mkToStr ev v mem b = .ok (sOut, m') → memOK m' = true := by
  intro sOut m' hvm
  simp only [mkToStr] at hvm
  cases hf : ev.fetch v mem with
  | error e => rw [hf] at hvm; simp only [errBind] at hvm; cases hvm
  | ok p =>
      obtain ⟨fv, fm⟩ := p
      rw [hf] at hvm
      simp only [okBind] at hvm
      have hfok := hev.1 v mem hv hm fv fm hf
      split at hvm
      · -- atom
        iterate 2 (all_goals try split at hvm)
        all_goals (cases hvm; exact hfok.2)
      · -- list
        rename_i e2 es2
        cases es2 with
        | nil =>
            simp only [List.isEmpty_nil, if_true] at hvm
            cases hvm
            exact hfok.2
        | cons x xs =>
            simp only [List.isEmpty_cons, Bool.false_eq_true, if_false] at hvm
            cases e2 with
            | true =>
                simp only [if_true] at hvm
                cases hsa : strAll ev (x :: xs) fm b with
                | error er => rw [hsa] at hvm; simp only [errBind] at hvm; cases hvm
                | ok q =>
                    obtain ⟨ss, m2⟩ := q
                    rw [hsa] at hvm
                    simp only [okBind] at hvm
                    cases hvm
                    have h2 := hfok.1
                    rw [valOK_lst] at h2
                    exact strAll_OK ev hev (x :: xs) fm b h2 hfok.2 ss _ hsa
            | false =>
                simp only [Bool.false_eq_true, if_false] at hvm
                cases hx : ev.execute (.lst false (x :: xs)) fm with
                | error er => rw [hx] at hvm; simp only [errBind] at hvm; cases hvm
                | ok q =>
                    obtain ⟨xv, xm⟩ := q
                    rw [hx] at hvm
                    simp only [okBind] at hvm
                    have hxok := hev.2.1 _ fm hfok.1 hfok.2 xv xm hx
                    exact hev.2.2 xv xm false sOut m' hxok.1 hxok.2 hvm
      · -- method
        split at hvm
        all_goals (cases hvm; exact hfok.2)
      · -- native
        split at hvm
        all_goals (cases hvm; exact hfok.2)

theorem evOK_succ (ev : Evaluator) (hev : evOK ev) :
    evOK ⟨mkFetch ev, mkExecute ev, mkToStr ev⟩ := by
  refine ⟨?_, ?_, ?_⟩
  · intro v mem hv hm
    exact mkFetch_OK ev hev v mem hv hm
  · intro v mem hv hm
    exact mkExecute_OK ev hev v mem hv hm
  · intro v mem b sOut m' hv hm h
    exact mkToStr_OK ev hev v mem b hv hm sOut m' h

theorem evOK_evalN : ∀ n, evOK (evalN n) := by
  intro n
  induction n with
  | zero => exact evOK_zero
  | succ k ih => exact evOK_succ (evalN k) ih

/-- C4 (amended): the Method-shape invariant the code actually enforces is
weaker than claimed: (1) `DEF` fails ("Illegal function arguments") on any
params argument that is not an unquoted list of exactly one element of
atom kind — but it never inspects that atom\x27s quote flag or text (see the
counterexample); (2) every Method `DEF` returns has that shape; and (3)
the shape is an invariant of the whole evaluator: from a value and memory
all of whose embedded Methods have it (e.g. any parsed program with the
driver\x27s initial memory), every value and memory produced by `execute` or
`fetch`, at any depth, has it too. -/
theorem C4_method_param_shape (n : ℕ) :
    (∀ (ev : Evaluator) (s : String) (pp pb : Value) (mem : Memory),
      defParamsShape pp = false →
      DEF ev [.atom false s, pp, pb] mem =
        .error (.err "DEF: Illegal function arguments.")) ∧
    (∀ (ev : Evaluator) (ps : List Value) (mem : Memory) (m : Value) (mem' : Memory),
      DEF ev ps mem = .ok (m, mem') →
      ∃ pn pp pb, m = .method pn pp pb ∧ defParamsShape pp = true) ∧
    (∀ (v : Value) (mem : Memory), valOK v = true → memOK mem = true →
      (∀ r m', execute n v mem = .ok (r, m') → valOK r = true ∧ memOK m' = true) ∧
      (∀ r m', fetch n v mem = .ok (r, m') → valOK r = true ∧ memOK m' = true)) := by
  refine ⟨?_, ?_, ?_⟩
  · intro ev s pp pb mem hshape
    cases pp with
    | atom e t => rfl
    | native t => rfl
    | method a b c => rfl
    | lst e es =>
        cases e with
        | true => rfl
        | false =>
            cases es with
            | nil => rfl
            | cons x r =>
                cases r with
                | cons y r2 => cases x <;> rfl
                | nil =>
                    cases x with
                    | atom xe xt => simp [defParamsShape] at hshape
                    | lst a b => rfl
                    | method a b c => rfl
                    | native t => rfl
  · intro ev ps mem m mem' h
    simp only [DEF] at h
    iterate 4 (all_goals try split at h)
    all_goals try (cases h)
    exact ⟨_, _, _, rfl, rfl⟩
  · intro v mem hv hm
    constructor
    · intro r m' h
      exact (evOK_evalN n).2.1 v mem hv hm r m' h
    · intro r m' h
      exact (evOK_evalN n).1 v mem hv hm r m' h

theorem C4_method_param_shape_witness :
    (DEF (evalN 0) [.atom false "F", .atom false "X", .lst false []] [] =
      .error (.err "DEF: Illegal function arguments.")) ∧
    (valOK defTrueMethod = true ∧
      memOK (mset "F" defTrueMethod initialMemory) = true) :=
  ⟨(C4_method_param_shape 0).1 (evalN 0) "F" (.atom false "X") (.lst false []) [] rfl,
   ((C4_method_param_shape 2).2.2 defTrueStmt initialMemory rfl rfl).1
     defTrueMethod (mset "F" defTrueMethod initialMemory) rfl⟩



/-- C4 counterexample: `DEF` accepts a params list whose single atom is the
reserved word `TRUE` (it never inspects the atom\x27s text or quote flag), so
the interpreter constructs a Method violating the claimed invariant. -/
theorem C4_def_accepts_reserved_param :
    parse "(DEF F (TRUE) (ADD N 1))" = .ok [defTrueStmt] ∧
    execute 2 defTrueStmt initialMemory =
      .ok (defTrueMethod, mset "F" defTrueMethod initialMemory) :=
  ⟨rfl, rfl⟩

/-! ### C5 -/

/-- C5 counterexample: a fetched argument that is the empty list `NIL` is
NOT an atom whose text parses as a number, yet `ADD` does not fail: the
empty element array coerces through `Number([]) = 0` and `(ADD 1 NIL)`
returns `1`. -/
theorem C5_add_nil_returns_one :
    parse "(ADD 1 NIL)" = .ok [addNilStmt] ∧
    execute 3 addNilStmt initialMemory = .ok (.atom false "1", initialMemory) :=
  ⟨rfl, rfl⟩

/-! ### C6 -/

/-- C6 counterexample: after parsing `\x27(A (B))`, the atom `B` sits inside
an unquoted nested list of a quoted list and does NOT carry the quote flag
(propagation is one level only, from the directly enclosing list). -/
theorem C6_no_transitive_quote_propagation :
    parse "\x27(A (B))" = .ok [.lst true [.atom true "A", .lst false [.atom false "B"]]] := rfl

end Interp
